import Mathlib

/-!
Shallow embedding of the autoscraper core (`src/autoscraper_core/core.py`):
selector synthesis, card-family resolution, container scanning, card
re-extraction, field extraction, the guarded pagination click and the main
scrape loop, together with theorems settling the specification claims.

The Selenium driver is an external collaborator ("DOM Query Facade" in the
spec); every embedding below takes the facade's query results as explicit
data (structures of lists and functions) and translates the Python control
flow over them.  Python exceptions at a lookup boundary become `Option` or
an empty list, exactly where the source catches them.
-/

namespace Autoscraper

/-! ### String primitives

The Python/JS string operations the source uses, implemented over the
character list of a `String` (so that proofs can evaluate them). -/

/-- Python `str.lower()` / JS `toLowerCase()` (ASCII case folding). -/
def strLower (s : String) : String := ⟨s.data.map Char.toLower⟩

/-- Python `str.strip()` / JS `trim()`. -/
def strTrim (s : String) : String :=
  ⟨((s.data.dropWhile Char.isWhitespace).reverse.dropWhile Char.isWhitespace).reverse⟩

/-- Helper for `pyWords`: accumulates the current word (reversed). -/
def wordsAux : List Char → List Char → List String
  | [], cur => if cur.isEmpty then [] else [⟨cur.reverse⟩]
  | c :: rest, cur =>
    if c.isWhitespace then
      if cur.isEmpty then wordsAux rest [] else ⟨cur.reverse⟩ :: wordsAux rest []
    else wordsAux rest (c :: cur)

/-- Python `str.split()` with no argument (and JS `trim().split(/\s+/)` on
a trimmed string): the whitespace-separated words, no empties. -/
def pyWords (s : String) : List String := wordsAux s.data []

/-- Helper for `strHasSub`: does `needle` occur in the character list. -/
def infixAux (needle : List Char) : List Char → Bool
  | [] => needle.isEmpty
  | c :: rest => needle.isPrefixOf (c :: rest) || infixAux needle rest

/-- Python `needle in hay` substring containment. -/
def strHasSub (hay needle : String) : Bool := infixAux needle.data hay.data

/-! ### Ordered dictionaries (Python `dict` with insertion order) -/

/-- A Python `dict` mapping field names to strings, with insertion order. -/
abbrev Row := List (String × String)

/-- Python `d[k] = v`: update the first matching key in place, else append. -/
def dictSet : Row → String → String → Row
  | [], k, v => [(k, v)]
  | (k', v') :: rest, k, v =>
    if k' = k then (k, v) :: rest else (k', v') :: dictSet rest k v

/-- Python `k in d`. -/
def dictHas (d : Row) (k : String) : Bool := d.any (fun p => p.1 = k)

/-- Python `d.get(k)`. -/
def dictGet (d : Row) (k : String) : Option String :=
  (d.find? (fun p => p.1 = k)).map (fun p => p.2)

/-- Python `d.get(k, "")`. -/
def dictGetD (d : Row) (k : String) : String := (dictGet d k).getD ""

/-- Python `d.update(new)`. -/
def rowUpdate (d new : Row) : Row := new.foldl (fun acc kv => dictSet acc kv.1 kv.2) d

/-! ### Selector synthesizer (`_js_unique_selector` / `get_unique_selector`)

The synthesizer is the JavaScript function `cssPath` injected by
`_js_unique_selector`.  A DOM element is modelled by the attributes the
script reads: `tagName`, `id`, `className` (empty string = JS-falsy missing
value) and the number of preceding element siblings.  The walk up
`parentNode` is modelled by passing the ancestor chain explicitly, nearest
parent first; the chain stops below the document node (which has no `id`
and is not an element node). -/

/-- A DOM element as the injected `cssPath` script reads it. -/
structure JsNode where
  tagName : String
  id : String
  className : String
  prevSiblings : Nat
deriving DecidableEq

/-- `("" + el.className).trim().split(/\s+/).slice(0,4).join(".")`. -/
def classPart (className : String) : String :=
  String.intercalate "." ((pyWords className).take 4)

/-- One non-id path segment, as built by the body of the JS `while` loop:
the lowercased tag, a dot-joined class list (at most 4 classes) when the
element has a class attribute, and an `:nth-child(k)` qualifier where `k`
is one plus the number of preceding element siblings. -/
def segment (n : JsNode) : String :=
  let sel := strLower n.tagName
  let sel :=
    if n.className ≠ "" then
      if classPart n.className ≠ "" then sel ++ "." ++ classPart n.className else sel
    else sel
  sel ++ ":nth-child(" ++ toString (n.prevSiblings + 1) ++ ")"

/-- The JS `while` loop of `cssPath`: pushes the current element's segment,
then, if the parent has an id, emits `tag#id` for the parent and stops;
otherwise continues with the parent.  `path` is the accumulated suffix
(deeper elements). -/
def cssPathLoop : JsNode → List JsNode → List String → List String
  | el, [], path => segment el :: path
  | el, parent :: rest, path =>
    let path := segment el :: path
    if parent.id ≠ "" then (strLower parent.tagName ++ "#" ++ parent.id) :: path
    else cssPathLoop parent rest path

/-- `cssPath(el)` from `_js_unique_selector` (the value returned by
`get_unique_selector`): a node with an id short-circuits to `tag#id`;
otherwise the collected segments are joined with `" > "`. -/
def cssPath (el : JsNode) (ancestors : List JsNode) : String :=
  if el.id ≠ "" then strLower el.tagName ++ "#" ++ el.id
  else String.intercalate " > " (cssPathLoop el ancestors [])

/-- Segment list as the claim describes the walk: from the node toward the
root, at the first element carrying an id emit `tag#id` and stop, otherwise
emit the tag/class/nth-child segment and continue. -/
def specSegments : List JsNode → List String
  | [] => []
  | n :: rest =>
    if n.id ≠ "" then [strLower n.tagName ++ "#" ++ n.id]
    else segment n :: specSegments rest

/-- The synthesizer as the amended claim states it: the walk's segments,
root-to-leaf, joined with the child combinator `" > "`. -/
def cssPathAmendedSpec (el : JsNode) (ancestors : List JsNode) : String :=
  String.intercalate " > " (specSegments (el :: ancestors)).reverse

/-- The synthesizer as claim C5 literally states it: the walk's segments,
root-to-leaf, joined with descendant-combinator spacing (a single space). -/
def cssPathClaimSpec (el : JsNode) (ancestors : List JsNode) : String :=
  String.intercalate " " (specSegments (el :: ancestors)).reverse

/-- Concrete counterexample chain: a div inside a body, no ids, no classes. -/
def c5Leaf : JsNode := ⟨"div", "", "", 0⟩

/-- Parent of `c5Leaf` in the counterexample chain. -/
def c5Parent : JsNode := ⟨"body", "", "", 0⟩

/-! ### Card family resolution (`_most_common_tag_and_class`) -/

/-- The state-like keywords whose presence drops a class token. -/
def stateWords : List String := ["active", "selected", "current", "hover", "focus"]

/-- The class tokens `_most_common_tag_and_class` keeps: split the class
attribute on whitespace, drop tokens containing a state-like keyword
(substring of the lowercased token) or any digit. -/
def keepClassTokens (classAttr : String) : List String :=
  (pyWords (strTrim classAttr)).filter
    (fun cls => !(stateWords.any (fun k => strHasSub (strLower cls) k)) && !(cls.data.any Char.isDigit))

/-- One scanned card as family resolution reads it through the facade:
`tag_name` and the raw `class` attribute (empty string for a missing one). -/
structure CardSig where
  tagName : String
  classAttr : String
deriving DecidableEq

/-- The `(tag, filteredClassString)` grouping key computed for one card. -/
def sigKey (e : CardSig) : String × String :=
  (strLower e.tagName, String.intercalate " " (keepClassTokens e.classAttr))

/-- `freq[key] = freq.get(key, 0) + 1` on an insertion-ordered assoc list. -/
def bumpFreq : List ((String × String) × Nat) → String × String → List ((String × String) × Nat)
  | [], k => [(k, 1)]
  | (k', n) :: rest, k =>
    if k' = k then (k', n + 1) :: rest else (k', n) :: bumpFreq rest k

/-- The insertion-ordered frequency map over the cards' grouping keys. -/
def buildFreq (keys : List (String × String)) : List ((String × String) × Nat) :=
  keys.foldl bumpFreq []

/-- `freq.get(key, 0)` on the assoc list (proof-side accessor). -/
def lookupFreq (f : List ((String × String) × Nat)) (k : String × String) : Nat :=
  ((f.find? (fun p => p.1 = k)).map (fun p => p.2)).getD 0

/-- `a` sorts strictly ahead of `b` under
`sorted(..., key=lambda kv: (kv[1], len(kv[0][1])), reverse=True)`. -/
def freqBeats (a b : (String × String) × Nat) : Bool :=
  b.2 < a.2 || (a.2 = b.2 && b.1.2.length < a.1.2.length)

/-- First element of the reverse-sorted list: the first-inserted entry that
no other entry strictly beats (Python's sort is stable). -/
def pickBest : (String × String) × Nat → List ((String × String) × Nat) → (String × String) × Nat
  | best, [] => best
  | best, x :: rest => if freqBeats x best then pickBest x rest else pickBest best rest

/-- core.py `_most_common_tag_and_class`.  The `([], e0 :: _)` branch
mirrors the raw-tag/class fallback of the source, which (absent facade
exceptions) is reachable only through the dead pattern, since every element
inserts a frequency entry; an empty element list raises `IndexError` there,
which the source catches and turns into `("div", "")`. -/
def _most_common_tag_and_class (elems : List CardSig) : String × String :=
  match buildFreq (elems.map sigKey), elems with
  | [], [] => ("div", "")
  | [], e0 :: _ => (strLower e0.tagName, e0.classAttr)
  | f :: fs, _ => (pickBest f fs).1

/-! ### Card candidate scanner (`find_product_cards`)

A live element is modelled by the facade attributes the scanning heuristics
read — `tag_name`, `location["y"]`, `size`, rendered `text`, whether the
`.//a[@href]` and `.//img[@src]` descendant queries are non-empty — plus
its direct children.  The candidate list and the header offset `min_y`
(both produced through the facade by `_candidate_containers_first_pass` /
`_visible_region_y`) are inputs. -/

/-- Facade attribute data of one element for the scanning heuristics. -/
structure ElemData where
  tag : String
  y : Nat
  width : Nat
  height : Nat
  text : String
  hasLink : Bool
  hasImg : Bool

/-- A DOM element with its facade data and direct children. -/
inductive DomElem where
  | node : ElemData → List DomElem → DomElem

/-- Facade data of an element. -/
def DomElem.data : DomElem → ElemData
  | .node d _ => d

/-- Direct children of an element (XPath `./*`). -/
def DomElem.children : DomElem → List DomElem
  | .node _ c => c

/-- core.py `_area_ok`: bounding box at least 60×60 px. -/
def _area_ok (e : DomElem) : Bool := 60 ≤ e.data.width && 60 ≤ e.data.height

/-- core.py `_has_link_or_img` (result of the two descendant queries). -/
def _has_link_or_img (e : DomElem) : Bool := e.data.hasLink || e.data.hasImg

/-- core.py `_score_card_like`: keep elements with card-like size and a
link/image or some non-blank text. -/
def _score_card_like (children : List DomElem) : List DomElem :=
  children.filter (fun c => _area_ok c && (_has_link_or_img c || strTrim c.data.text ≠ ""))

/-- core.py `_children_or_descendants`: prefer `./li` of a `ul`/`ol` when it
has at least two entries, else direct children when at least two, else the
grandchildren when at least three, else the direct children. -/
def _children_or_descendants (c : DomElem) : List DomElem :=
  let kids := c.children
  if (strLower c.data.tag = "ul" ∨ strLower c.data.tag = "ol") ∧
      2 ≤ (kids.filter (fun k => k.data.tag = "li")).length then
    kids.filter (fun k => k.data.tag = "li")
  else if 2 ≤ kids.length then kids
  else if 3 ≤ (kids.flatMap DomElem.children).length then kids.flatMap DomElem.children
  else kids

/-- Python `max(tag_counts.values()) if tag_counts else 0` over the tags of
the filtered nodes. -/
def uniformity (filtered : List DomElem) : Nat :=
  let tags := filtered.map (fun n => strLower n.data.tag)
  (tags.map (fun t => tags.count t)).foldr max 0

/-- Python tuple comparison `score > best_score` on `(count, uniformity)`. -/
def scoreGt (a b : Nat × Nat) : Bool := b.1 < a.1 || (a.1 = b.1 && b.2 < a.2)

/-- The candidate loop of `find_product_cards`: skip candidates above the
header cutoff (`min_y and top and top + 20 < min_y` — Python truthiness),
skip candidates whose node count is outside `[2, 160]` or whose filtered
card-like set has fewer than 2 nodes, keep the strictly best
`(count, uniformity)` score, and break early once a candidate reaches
`early_break_count` card-like nodes with uniformity at least 2. -/
def scanCandidates (min_y early_break_count : Nat) :
    List DomElem → Nat × Nat → List DomElem → Option DomElem → List DomElem × Option DomElem
  | [], _, bestCards, bestCont => (bestCards, bestCont)
  | c :: rest, bestScore, bestCards, bestCont =>
    if min_y ≠ 0 ∧ c.data.y ≠ 0 ∧ c.data.y + 20 < min_y then
      scanCandidates min_y early_break_count rest bestScore bestCards bestCont
    else
      let nodes := _children_or_descendants c
      if nodes.length < 2 ∨ 160 < nodes.length then
        scanCandidates min_y early_break_count rest bestScore bestCards bestCont
      else
        let filtered := _score_card_like nodes
        if filtered.length < 2 then
          scanCandidates min_y early_break_count rest bestScore bestCards bestCont
        else
          let u := uniformity filtered
          let next :=
            if scoreGt (filtered.length, u) bestScore then ((filtered.length, u), filtered, some c)
            else (bestScore, bestCards, bestCont)
          if early_break_count ≤ filtered.length ∧ 2 ≤ u then (next.2.1, next.2.2)
          else scanCandidates min_y early_break_count rest next.1 next.2.1 next.2.2

/-- core.py `find_product_cards` over the facade-supplied candidate list
(the source defaults are `max_containers = 300`, `early_break_count = 8`). -/
def find_product_cards (min_y : Nat) (candidates : List DomElem)
    (max_containers early_break_count : Nat) : List DomElem × Option DomElem :=
  scanCandidates min_y early_break_count (candidates.take max_containers) (0, 0) [] none

/-- A child too small to be card-like (0×0 box, no text, no links). -/
def tinyElem : DomElem := .node ⟨"div", 0, 0, 0, "", false, false⟩ []

/-- A card-like child: 100×100 box with non-blank text and a link. -/
def cardElem : DomElem := .node ⟨"div", 0, 100, 100, "x y", true, false⟩ []

/-- Counterexample container: 161 direct children of which exactly 2 are
card-like, so its raw node count exceeds 160 while its filtered card-like
set has size 2. -/
def fatContainer : DomElem :=
  .node ⟨"div", 0, 500, 500, "", false, false⟩ (List.replicate 159 tinyElem ++ [cardElem, cardElem])

/-- Witness container: exactly 2 direct children, both card-like. -/
def twoCardContainer : DomElem :=
  .node ⟨"div", 0, 300, 300, "", false, false⟩ [cardElem, cardElem]

/-! ### Card family re-extraction (`extract_cards_from_container`) -/

/-- DOM query facade for re-extraction: `driver.find_element` for the
container (an exception becomes `none`) and `find_elements` under the
container (an empty list, never an error). -/
structure DomFacade (α : Type) where
  findContainer : String → Option α
  query : α → String → List α

/-- The fixed generic wrapper selectors of the last-resort strategy. -/
def wrapperSelectors : List String := [".product", ".card", ".item", ".tile", "li", "article", "div"]

/-- The last-resort loop: accept the first selector yielding at least two
matches, else the empty list. -/
def wrapperFallback {α : Type} (dom : DomFacade α) (container : α) : List String → List α
  | [] => []
  | sel :: rest =>
    let cards := dom.query container sel
    if 2 ≤ cards.length then cards else wrapperFallback dom container rest

/-- The `tag.class1.class2...` selector built from a locked card family. -/
def classSelector (card_tag card_class : String) : String :=
  card_tag ++ "." ++ String.intercalate "." (pyWords (strTrim card_class))

/-- core.py `extract_cards_from_container`: resolve the container, then try
the class-qualified query (when the stripped class string is non-empty),
the tag-only query, and the generic wrapper selectors, in that order. -/
def extract_cards_from_container {α : Type} (dom : DomFacade α)
    (container_selector card_tag card_class : String) : List α :=
  match dom.findContainer container_selector with
  | none => []
  | some container =>
    let byClass :=
      if strTrim card_class ≠ "" then dom.query container (classSelector card_tag card_class)
      else []
    if byClass.isEmpty = false then byClass
    else
      let byTag := dom.query container card_tag
      if byTag.isEmpty = false then byTag
      else wrapperFallback dom container wrapperSelectors

/-! ### Card field extraction (`extract_fields_from_card`)

A card is modelled by the facade results the function reads: the rendered
texts of the nodes matched by the title CSS query (in DOM order), the
texts of the descendants matched by the non-blank-string XPath, and the
`href` / `src` attribute values of the anchor and image descendants
(an attribute that reads as `None` is the empty string). -/

/-- Facade views of one card for `extract_fields_from_card`. -/
structure CardDom where
  titleTexts : List String
  textTexts : List String
  hrefs : List String
  srcs : List String
deriving DecidableEq

/-- Title collection: first 6 title nodes, trimmed, non-empty, dedup. -/
def collectTitles (l : List String) : List String :=
  (l.take 6).foldl
    (fun acc t0 =>
      let t := strTrim t0
      if t ≠ "" ∧ t ∉ acc then acc ++ [t] else acc) []

/-- General text collection: trimmed, non-empty, dedup, length above 1. -/
def collectTexts (l : List String) : List String :=
  l.foldl
    (fun acc t0 =>
      let t := strTrim t0
      if t ≠ "" ∧ t ∉ acc ∧ 1 < t.length then acc ++ [t] else acc) []

/-- Link/image collection: truthy attribute values, dedup. -/
def collectAttrs (l : List String) : List String :=
  l.foldl (fun acc v => if v ≠ "" ∧ v ∉ acc then acc ++ [v] else acc) []

/-- Python `max(l, key=len)` on a non-empty list (first maximum wins);
the empty list maps to `""` (the source only calls it on non-empty input). -/
def longestFirst : List String → String
  | [] => ""
  | t :: rest => rest.foldl (fun best x => if best.length < x.length then x else best) t

/-- The `for i, t in enumerate(text_values[:8], start=offset)` loop:
`if key not in data: data[key] = t`. -/
def addTexts : Row → Nat → List String → Row
  | d, _, [] => d
  | d, i, t :: rest =>
    let key := "Text " ++ toString i
    addTexts (if dictHas d key then d else dictSet d key t) (i + 1) rest

/-- The `data[f"Link {i}"] = l` / `data[f"Image {i}"] = s` loops. -/
def addNumbered (keyBase : String) : Row → Nat → List String → Row
  | d, _, [] => d
  | d, i, v :: rest => addNumbered keyBase (dictSet d (keyBase ++ toString i) v) (i + 1) rest

/-- core.py `extract_fields_from_card`. -/
def extract_fields_from_card (c : CardDom) : Row :=
  let titles := collectTitles c.titleTexts
  let text_values := collectTexts c.textTexts
  let links := collectAttrs c.hrefs
  let imgs := collectAttrs c.srcs
  let start : Row × Nat :=
    match titles with
    | [] => ([], 1)
    | t0 :: _ => (dictSet [] "Text 1" t0, 2)
  let d := addTexts start.1 start.2 (text_values.take 8)
  let d := addNumbered "Link " d 1 (links.take 10)
  let d := addNumbered "Image " d 1 (imgs.take 10)
  let all_txt := titles ++ text_values
  if all_txt ≠ [] then dictSet d "Description" (longestFirst all_txt) else d

/-- Entries `(keyBase ++ i, v)` with `i` counting from `start`. -/
def numberedEntries (keyBase : String) : Nat → List String → Row
  | _, [] => []
  | i, v :: rest => (keyBase ++ toString i, v) :: numberedEntries keyBase (i + 1) rest

/-- The card row as the amended claim states it: the optional `Text 1`
title, then at most the first 8 of the collected text values numbered from
the offset after the title, the first 10 links as `Link 1..`, the first 10
images as `Image 1..`, and `Description` holding the longest collected
title/text candidate (first occurrence wins ties), all appended in order. -/
def extract_fields_from_card_spec (c : CardDom) : Row :=
  let titles := collectTitles c.titleTexts
  let texts := collectTexts c.textTexts
  let titleRow : Row := match titles with | [] => [] | t0 :: _ => [("Text 1", t0)]
  let off : Nat := match titles with | [] => 1 | _ :: _ => 2
  let descRow : Row :=
    match titles ++ texts with
    | [] => []
    | _ :: _ => [("Description", longestFirst (titles ++ texts))]
  titleRow ++ numberedEntries "Text " off (texts.take 8) ++
    numberedEntries "Link " 1 ((collectAttrs c.hrefs).take 10) ++
    numberedEntries "Image " 1 ((collectAttrs c.srcs).take 10) ++ descRow

/-- Counterexample card for the text cap: no titles, nine distinct
collectable texts. -/
def nineTextCard : CardDom :=
  ⟨[], ["aa", "bb", "cc", "dd", "ee", "ff", "gg", "hh", "ii"], [], []⟩

/-! ### Detail-page field extraction (`extract_fields_from_detail_page`) -/

/-- One resolved detail-page element: rendered text and attribute lookup. -/
structure DetailElem where
  text : String
  attrs : String → Option String

/-- Detail-page driver facade: single-element CSS lookup, an exception
(no match, bad selector) becomes `none`. -/
structure DetailDriver where
  findOne : String → Option DetailElem

/-- A learned field-selector config; the empty string models a missing or
falsy entry (`cfg.get(...) or default`). -/
structure FieldCfg where
  name : String
  selector : String
  attr : String
deriving DecidableEq

/-- `cfg.get("name") or "Field"`. -/
def cfgName (cfg : FieldCfg) : String := if cfg.name = "" then "Field" else cfg.name

/-- `(cfg.get("attr") or "text").lower()`. -/
def cfgAttr (cfg : FieldCfg) : String := strLower (if cfg.attr = "" then "text" else cfg.attr)

/-- The value stored for one config: trimmed text for `attr == "text"`,
otherwise the named attribute (falsy becomes `""`); resolution failure
yields `""`. -/
def detailValue (drv : DetailDriver) (cfg : FieldCfg) : String :=
  match drv.findOne cfg.selector with
  | none => ""
  | some el => if cfgAttr cfg = "text" then strTrim el.text else (el.attrs (cfgAttr cfg)).getD ""

/-- core.py `extract_fields_from_detail_page`. -/
def extract_fields_from_detail_page (drv : DetailDriver) (selectors : List FieldCfg) : Row :=
  selectors.foldl (fun out cfg => dictSet out (cfgName cfg) (detailValue drv cfg)) []

/-! ### Guarded pagination click (`safe_click`) -/

/-- The facade observations `safe_click` makes, in source order: the
presence wait, the element lookup, `is_displayed`, `is_enabled`, the
`disabled` and `aria-disabled` attributes, the clickability wait, and the
native and script click outcomes (with the exception texts used in logs). -/
structure ClickEnv where
  presenceOk : Bool
  presenceErr : String
  found : Bool
  displayed : Bool
  enabled : Bool
  disabledAttr : Option String
  ariaDisabled : Option String
  clickableOk : Bool
  clickableErr : String
  nativeClickOk : Bool
  nativeErr : String
  jsClickOk : Bool
  jsErr : String

/-- Python truthiness of a `get_attribute` result. -/
def truthyAttr : Option String → Bool
  | none => false
  | some s => s ≠ ""

/-- core.py `safe_click`: the returned bool and the logged lines. -/
def safe_click (e : ClickEnv) : Bool × List String :=
  if e.presenceOk = false then (false, ["Safe click failed: " ++ e.presenceErr])
  else if e.found = false then (false, ["Pagination ended: button is gone."])
  else if e.displayed = false then (false, ["Pagination ended: button not visible."])
  else if e.enabled = false then (false, ["Pagination ended: button not enabled."])
  else if truthyAttr e.disabledAttr = true ∨ strLower ((e.ariaDisabled).getD "") = "true" then
    (false, ["Pagination ended: button disabled."])
  else if e.clickableOk = false then (false, ["Safe click failed: " ++ e.clickableErr])
  else if e.nativeClickOk then (true, [])
  else if e.jsClickOk then
    (true, ["Selenium click() failed: " ++ e.nativeErr ++ "; retrying JS click."])
  else
    (false, ["Selenium click() failed: " ++ e.nativeErr ++ "; retrying JS click.",
             "JS click also failed: " ++ e.jsErr])

/-- Witness environment: target present, visible, enabled, but carrying a
truthy `disabled` attribute. -/
def disabledBtnEnv : ClickEnv :=
  ⟨true, "", true, true, true, some "true", none, true, "", true, "", true, ""⟩

/-! ### Scrape loop (`scrape_with_locked_container`)

The loop reads everything through the facade; one run is modelled by the
per-page card snapshots the locked-family re-extraction yields and the
outcome of the guarded pagination click after each page.  Each card carries
the facade views the loop reads from it: whether reading its fields raises
a stale-element error, its `CardDom` for field extraction, its whole-node
text (for `extract_main_text`), whether `open_product_from_card` succeeds
on it, and the detail-page driver reached after opening it. -/

/-- One card as the scrape loop sees it. -/
structure PageCard where
  stale : Bool
  dom : CardDom
  selfText : String
  openOk : Bool
  detailDrv : DetailDriver

/-- One scrape run's environment: the page snapshots and the per-page
pagination-click outcomes. -/
structure ScrapeEnv where
  pages : List (List PageCard)
  clickOk : Nat → Bool

/-- The cards the locked-family re-extraction yields on page `p` (an index
beyond the snapshots is an empty page). -/
def ScrapeEnv.pageAt (env : ScrapeEnv) (p : Nat) : List PageCard := env.pages.getD p []

/-- The dedup key tuple `(Text 1, Link 1, Image 1)`. -/
abbrev DedupKey := String × String × String

/-- `(d.get("Text 1", ""), d.get("Link 1", ""), d.get("Image 1", ""))`. -/
def dedupKeyOf (d : Row) : DedupKey :=
  (dictGetD d "Text 1", dictGetD d "Link 1", dictGetD d "Image 1")

/-- core.py `extract_main_text`. -/
def extract_main_text (c : PageCard) : String := strTrim c.selfText

/-- Result of processing one page's cards. -/
structure PageOutcome where
  seenAfter : List DedupKey
  pageKeys : List DedupKey
  rows : List (DedupKey × Row)

/-- The per-card loop body of `scrape_with_locked_container`: skip stale
cards, extract fields, skip keys already seen globally, optionally merge
detail fields, and append the row to the page and the running dataset.
Returns the final seen-set, this page's key set (in first-acceptance
order; it is a set since accepted keys are immediately recorded as seen)
and the appended rows annotated with their dedup keys. -/
def processPage (dsels : List FieldCfg) (useDetail : Bool) :
    List PageCard → List DedupKey → PageOutcome
  | [], seen => ⟨seen, [], []⟩
  | c :: rest, seen =>
    if c.stale then processPage dsels useDetail rest seen
    else
      let d := extract_fields_from_card c.dom
      let key := dedupKeyOf d
      if key ∈ seen then processPage dsels useDetail rest seen
      else
        let d2 :=
          if useDetail && c.openOk then
            rowUpdate d (extract_fields_from_detail_page c.detailDrv dsels)
          else d
        let out := processPage dsels useDetail rest (seen ++ [key])
        ⟨out.seenAfter, key :: out.pageKeys, (key, d2) :: out.rows⟩

/-- Why the loop stopped. -/
inductive StopReason where
  | noCards
  | sameCards
  | clickRejected
  | waitTimeout
  | pageBudget
deriving DecidableEq

/-- Python set equality `card_keys == prev_card_keys`. -/
def keySetEq (l1 l2 : List DedupKey) : Bool :=
  l1.all (fun k => k ∈ l2) && l2.all (fun k => k ∈ l1)

/-- `extract_main_text(cards[0]) if cards else ""`. -/
def firstCardText : List PageCard → String
  | [] => ""
  | c :: _ => extract_main_text c

/-- The bounded wait after an accepted pagination click: the re-extracted
cards are non-empty and the first card's text differs from the captured
text (a wait that never observes this times out and stops the loop). -/
def paginationWaitOk (env : ScrapeEnv) (nextPage : Nat) (prevFirst : String) : Bool :=
  !(env.pageAt nextPage).isEmpty && firstCardText (env.pageAt nextPage) ≠ prevFirst

/-- Instrumented outcome of one run: the annotated dataset, the number of
pagination-click attempts, the number of pages processed, and the stop
reason. -/
structure RunResult where
  data : List (DedupKey × Row)
  clicks : Nat
  processed : Nat
  reason : StopReason

/-- The `for page in range(max_pages)` loop of
`scrape_with_locked_container`, with `fuel` the remaining page budget. -/
def scrapeLoop (env : ScrapeEnv) (dsels : List FieldCfg) (useDetail : Bool) :
    Nat → Nat → List DedupKey → List DedupKey → List (DedupKey × Row) → Nat → Nat → RunResult
  | 0, _, _, _, acc, clicks, processed => ⟨acc, clicks, processed, .pageBudget⟩
  | fuel + 1, page, seen, prev, acc, clicks, processed =>
    let out := processPage dsels useDetail (env.pageAt page) seen
    let acc := acc ++ out.rows
    let processed := processed + 1
    if out.rows.isEmpty then ⟨acc, clicks, processed, .noCards⟩
    else if keySetEq out.pageKeys prev = true ∧ 0 < page then ⟨acc, clicks, processed, .sameCards⟩
    else
      let prevFirst := firstCardText (env.pageAt page)
      let clicks := clicks + 1
      if env.clickOk page = false then ⟨acc, clicks, processed, .clickRejected⟩
      else if paginationWaitOk env (page + 1) prevFirst = false then
        ⟨acc, clicks, processed, .waitTimeout⟩
      else scrapeLoop env dsels useDetail fuel (page + 1) out.seenAfter out.pageKeys acc clicks processed

/-- Whether the detail sub-step is configured:
`detail_selectors and product_card_selector` (Python truthiness). -/
def useDetailFlag (dsels : List FieldCfg) (product_card_selector : Option String) : Bool :=
  !dsels.isEmpty && product_card_selector.getD "" ≠ ""

/-- One instrumented run of the scrape loop. -/
def scrapeRun (env : ScrapeEnv) (dsels : List FieldCfg) (product_card_selector : Option String)
    (max_pages : Nat) : RunResult :=
  scrapeLoop env dsels (useDetailFlag dsels product_card_selector) max_pages 0 [] [] [] 0 0

/-- core.py `scrape_with_locked_container`: the returned dataset. -/
def scrape_with_locked_container (env : ScrapeEnv) (dsels : List FieldCfg)
    (product_card_selector : Option String) (max_pages : Nat) : List Row :=
  (scrapeRun env dsels product_card_selector max_pages).data.map (fun p => p.2)

/-- The key set the per-card loop produces on page 1 (0-indexed page 0). -/
def page0Keys (env : ScrapeEnv) (dsels : List FieldCfg) (pcs : Option String) : List DedupKey :=
  (processPage dsels (useDetailFlag dsels pcs) (env.pageAt 0) []).pageKeys

/-- The key set the per-card loop produces on page 2 (0-indexed page 1),
with the seen-set left by page 1. -/
def page1Keys (env : ScrapeEnv) (dsels : List FieldCfg) (pcs : Option String) : List DedupKey :=
  (processPage dsels (useDetailFlag dsels pcs) (env.pageAt 1)
    (processPage dsels (useDetailFlag dsels pcs) (env.pageAt 0) []).seenAfter).pageKeys

/-- Witness environment for the termination claim: no pages at all. -/
def emptyScrapeEnv : ScrapeEnv := ⟨[], fun _ => true⟩

/-! ### Concrete witness fixtures -/

/-- Witness facade for re-extraction: one container under selector
`#grid`, two cards under `div.card`, nothing else. -/
def c3Facade : DomFacade Nat :=
  ⟨fun s => if s = "#grid" then some 0 else none,
   fun _ sel => if sel = "div.card" then [1, 2] else []⟩

/-- Witness detail element: padded text and one `href` attribute. -/
def detailElemA : DetailElem :=
  ⟨"  Title  ", fun a => if a = "href" then some "u1" else none⟩

/-- Witness detail driver: only the selector `h1` resolves. -/
def detailDrvA : DetailDriver := ⟨fun s => if s = "h1" then some detailElemA else none⟩

/-- Witness field selectors: a text field, an attribute field, and one
whose selector resolves nothing. -/
def detailCfgs : List FieldCfg :=
  [⟨"Name", "h1", "text"⟩, ⟨"Url", "h1", "href"⟩, ⟨"Missing", ".zz", "text"⟩]

/-- Witness card set for family resolution: nine `div.card` and one
`div.promo`. -/
def nineOneCards : List CardSig := List.replicate 9 ⟨"div", "card"⟩ ++ [⟨"div", "promo"⟩]

/-! ## Theorems -/

/-! ### Selector synthesizer (claim C5) -/

/-- The accumulator form of the JS walk computes the spec-side segment
list: on an element without an id, the walk's output is the reversed
leaf-to-root segment list followed by the accumulated path. -/
theorem cssPathLoop_eq_specSegments :
    ∀ (ancestors : List JsNode) (el : JsNode) (path : List String), el.id = "" →
      cssPathLoop el ancestors path = (specSegments (el :: ancestors)).reverse ++ path := by
  intro ancestors
  induction ancestors with
  | nil =>
    intro el path h
    simp [cssPathLoop, specSegments, h]
  | cons parent rest ih =>
    intro el path h
    by_cases hp : parent.id = ""
    · simp only [cssPathLoop, hp, ne_eq, not_true_eq_false, if_false, ih parent _ hp,
        specSegments, h, not_false_eq_true, if_true, List.reverse_cons, List.append_assoc,
        List.singleton_append]
      simp [specSegments, hp]
    · simp [cssPathLoop, hp, specSegments, h]

/-- Claim C5 (amended): the synthesizer walks from the node toward the
document root; at each ancestor with an id it emits `tag#id` and stops the
walk, otherwise it emits the tag plus at most 4 classes plus an
`:nth-child(k)` qualifier where `k` counts preceding siblings 1-indexed,
and the collected segments are concatenated root-to-leaf joined with the
child combinator `" > "`. -/
theorem cssPath_matches_amended_spec (el : JsNode) (ancestors : List JsNode) :
    cssPath el ancestors = cssPathAmendedSpec el ancestors := by
  by_cases h : el.id = ""
  · simp [cssPath, cssPathAmendedSpec, h, cssPathLoop_eq_specSegments ancestors el [] h]
  · simp [cssPath, cssPathAmendedSpec, specSegments, h, String.intercalate, String.intercalate.go]

/-- Claim C5 as stated is false: on a concrete id-free two-element chain
the synthesizer emits the child combinator `" > "` between segments, not
descendant-combinator spacing. -/
theorem cssPath_descendant_spacing_counterexample :
    cssPath c5Leaf [c5Parent] = "body:nth-child(1) > div:nth-child(1)" ∧
    cssPathClaimSpec c5Leaf [c5Parent] = "body:nth-child(1) div:nth-child(1)" ∧
    cssPath c5Leaf [c5Parent] ≠ cssPathClaimSpec c5Leaf [c5Parent] := by
  refine ⟨rfl, rfl, ?_⟩
  decide

/-! ### Guarded pagination click (claim C9) -/

/-- Claim C9: when the pagination target resolves but is disabled (a truthy
`disabled` attribute or `aria-disabled` equal to `"true"`), `safe_click`
returns a negative result and logs the "button disabled" reason without
raising; and every guard failure — target missing, not displayed, not
enabled, disabled, or both click attempts throwing — yields a negative
return with its specific logged reason; a negative return always carries a
logged reason. -/
theorem safe_click_guard_failures (e : ClickEnv) :
    (e.presenceOk = true → e.found = true → e.displayed = true → e.enabled = true →
      (truthyAttr e.disabledAttr = true ∨ strLower (e.ariaDisabled.getD "") = "true") →
      safe_click e = (false, ["Pagination ended: button disabled."])) ∧
    (e.presenceOk = true → e.found = false →
      safe_click e = (false, ["Pagination ended: button is gone."])) ∧
    (e.presenceOk = true → e.found = true → e.displayed = false →
      safe_click e = (false, ["Pagination ended: button not visible."])) ∧
    (e.presenceOk = true → e.found = true → e.displayed = true → e.enabled = false →
      safe_click e = (false, ["Pagination ended: button not enabled."])) ∧
    (e.presenceOk = true → e.found = true → e.displayed = true → e.enabled = true →
      truthyAttr e.disabledAttr = false → strLower (e.ariaDisabled.getD "") ≠ "true" →
      e.clickableOk = true → e.nativeClickOk = false → e.jsClickOk = false →
      safe_click e =
        (false, ["Selenium click() failed: " ++ e.nativeErr ++ "; retrying JS click.",
                 "JS click also failed: " ++ e.jsErr])) ∧
    ((safe_click e).1 = false → (safe_click e).2 ≠ []) := by
  refine ⟨?_, ?_, ?_, ?_, ?_, ?_⟩
  · intro h1 h2 h3 h4 h5
    simp [safe_click, h1, h2, h3, h4, h5]
  · intro h1 h2
    simp [safe_click, h1, h2]
  · intro h1 h2 h3
    simp [safe_click, h1, h2, h3]
  · intro h1 h2 h3 h4
    simp [safe_click, h1, h2, h3, h4]
  · intro h1 h2 h3 h4 h5 h6 h7 h8 h9
    simp [safe_click, h1, h2, h3, h4, h5, h6, h7, h8, h9]
  · unfold safe_click
    split_ifs <;> simp

/-- Witness for claim C9 at a concrete environment: present, visible,
enabled, but `disabled` set. -/
theorem safe_click_disabled_witness :
    safe_click disabledBtnEnv = (false, ["Pagination ended: button disabled."]) :=
  (safe_click_guard_failures disabledBtnEnv).1 rfl rfl rfl rfl (Or.inl rfl)

/-! ### Card re-extraction (claim C3) -/

/-- If every wrapper selector yields fewer than two matches, the
last-resort loop returns the empty list. -/
theorem wrapperFallback_all_fail {α : Type} (dom : DomFacade α) (cont : α) :
    ∀ sels : List String, (∀ sel ∈ sels, (dom.query cont sel).length < 2) →
      wrapperFallback dom cont sels = [] := by
  intro sels
  induction sels with
  | nil => intro _; rfl
  | cons s rest ih =>
    intro h
    have hs : (dom.query cont s).length < 2 := h s (List.mem_cons_self s rest)
    have hns : ¬ 2 ≤ (dom.query cont s).length := by omega
    simp only [wrapperFallback, hns, if_false]
    exact ih (fun sel hsel => h sel (List.mem_cons_of_mem s hsel))

/-- The last-resort loop accepts the first selector yielding at least two
matches: its result is empty, or it equals the query of the first selector
with at least two matches, every earlier selector yielding fewer. -/
theorem wrapperFallback_first_hit {α : Type} (dom : DomFacade α) (cont : α) :
    ∀ sels : List String,
      wrapperFallback dom cont sels = [] ∨
        ∃ i, i < sels.length ∧ 2 ≤ (dom.query cont (sels.getD i "")).length ∧
          (∀ j, j < i → (dom.query cont (sels.getD j "")).length < 2) ∧
          wrapperFallback dom cont sels = dom.query cont (sels.getD i "") := by
  intro sels
  induction sels with
  | nil => left; rfl
  | cons s rest ih =>
    by_cases h : 2 ≤ (dom.query cont s).length
    · right
      refine ⟨0, by simp, by simpa using h, by omega, ?_⟩
      simp [wrapperFallback, h]
    · rcases ih with h0 | ⟨i, hi, h2, hj, he⟩
      · left
        simp [wrapperFallback, h, h0]
      · right
        refine ⟨i + 1, by simpa using hi, by simpa using h2, ?_, ?_⟩
        · intro j hji
          cases j with
          | zero => simpa using (by omega : (dom.query cont s).length < 2)
          | succ j' => simpa using hj j' (by omega)
        · simp [wrapperFallback, h, he]

/-- Claim C3: card re-extraction under a locked family never raises (it is
a total function into lists) and tries its strategies in order — resolve
the container (failure gives the empty list); when the stripped
`card_class` is non-empty and the class-qualified query is non-empty, that
query is the result; else a non-empty tag-only query is the result; else
the fixed wrapper list is tried and the first selector with at least two
matches wins; when every strategy fails the result is the empty list. -/
theorem extract_cards_strategy_cascade {α : Type} (dom : DomFacade α) (cs tag cls : String) :
    (dom.findContainer cs = none → extract_cards_from_container dom cs tag cls = []) ∧
    (∀ cont, dom.findContainer cs = some cont →
      (strTrim cls ≠ "" → (dom.query cont (classSelector tag cls)).isEmpty = false →
        extract_cards_from_container dom cs tag cls = dom.query cont (classSelector tag cls)) ∧
      ((strTrim cls = "" ∨ (dom.query cont (classSelector tag cls)).isEmpty = true) →
        (dom.query cont tag).isEmpty = false →
        extract_cards_from_container dom cs tag cls = dom.query cont tag) ∧
      ((strTrim cls = "" ∨ (dom.query cont (classSelector tag cls)).isEmpty = true) →
        (dom.query cont tag).isEmpty = true →
        extract_cards_from_container dom cs tag cls = wrapperFallback dom cont wrapperSelectors) ∧
      ((strTrim cls = "" ∨ (dom.query cont (classSelector tag cls)).isEmpty = true) →
        (dom.query cont tag).isEmpty = true →
        (∀ sel ∈ wrapperSelectors, (dom.query cont sel).length < 2) →
        extract_cards_from_container dom cs tag cls = []) ∧
      (wrapperFallback dom cont wrapperSelectors = [] ∨
        ∃ i, i < wrapperSelectors.length ∧
          2 ≤ (dom.query cont (wrapperSelectors.getD i "")).length ∧
          (∀ j, j < i → (dom.query cont (wrapperSelectors.getD j "")).length < 2) ∧
          wrapperFallback dom cont wrapperSelectors = dom.query cont (wrapperSelectors.getD i ""))) := by
  constructor
  · intro h
    simp [extract_cards_from_container, h]
  · intro cont hc
    refine ⟨?_, ?_, ?_, ?_, wrapperFallback_first_hit dom cont wrapperSelectors⟩
    · intro h1 h2
      simp [extract_cards_from_container, hc, h1, h2]
    · intro h1 h2
      rcases h1 with h1 | h1 <;>
        simp [extract_cards_from_container, hc, h1, h2] <;>
        intro hcontra <;> simp_all
    · intro h1 h2
      rcases h1 with h1 | h1 <;>
        simp [extract_cards_from_container, hc, h1, h2] <;>
        intro hcontra <;> simp_all
    · intro h1 h2 h3
      have hw := wrapperFallback_all_fail dom cont wrapperSelectors h3
      rcases h1 with h1 | h1 <;>
        simp [extract_cards_from_container, hc, h1, h2, hw] <;>
        intro hcontra <;> simp_all

/-- Witness for claim C3 at a concrete facade: the container resolves and
the class-qualified strategy fires. -/
theorem extract_cards_cascade_witness :
    extract_cards_from_container c3Facade "#grid" "div" " card " = [1, 2] := by
  have h := (((extract_cards_strategy_cascade c3Facade "#grid" "div" " card ").2 0 rfl).1
    (by decide) rfl)
  exact h.trans rfl

/-! ### Card family resolution (claim C6) -/

/-- Looking up the key just stored at the head. -/
theorem lookupFreq_cons_eq (k : String × String) (n : Nat)
    (rest : List ((String × String) × Nat)) : lookupFreq ((k, n) :: rest) k = n := by
  simp [lookupFreq, List.find?]

/-- Lookup skips a head entry with a different key. -/
theorem lookupFreq_cons_ne (k' k : String × String) (hk : ¬ k' = k) (n : Nat)
    (rest : List ((String × String) × Nat)) :
    lookupFreq ((k', n) :: rest) k = lookupFreq rest k := by
  simp [lookupFreq, List.find?, hk]

/-- Bumping one key adjusts exactly that key's stored count. -/
theorem lookupFreq_bumpFreq (f : List ((String × String) × Nat)) (k0 k : String × String) :
    lookupFreq (bumpFreq f k0) k = lookupFreq f k + (if k = k0 then 1 else 0) := by
  induction f with
  | nil =>
    simp only [bumpFreq]
    by_cases h : k = k0
    · subst h
      rw [lookupFreq_cons_eq]
      simp [lookupFreq]
    · have h' : ¬ k0 = k := fun hh => h hh.symm
      rw [lookupFreq_cons_ne k0 k h']
      simp [lookupFreq, h]
  | cons p rest ih =>
    obtain ⟨k', n⟩ := p
    by_cases hkk : k' = k0
    · have hb : bumpFreq ((k', n) :: rest) k0 = (k', n + 1) :: rest := by
        simp [bumpFreq, hkk]
      rw [hb]
      by_cases h : k' = k
      · rw [h] at hkk ⊢
        rw [lookupFreq_cons_eq, lookupFreq_cons_eq]
        simp [hkk]
      · rw [lookupFreq_cons_ne k' k h, lookupFreq_cons_ne k' k h]
        have h2 : ¬ k = k0 := by
          rw [← hkk]
          exact fun hh => h hh.symm
        simp [h2]
    · have hb : bumpFreq ((k', n) :: rest) k0 = (k', n) :: bumpFreq rest k0 := by
        simp [bumpFreq, hkk]
      rw [hb]
      by_cases h : k' = k
      · rw [h, lookupFreq_cons_eq, lookupFreq_cons_eq]
        have h2 : ¬ k = k0 := by
          rw [← h]
          exact hkk
        simp [h2]
      · rw [lookupFreq_cons_ne k' k h, lookupFreq_cons_ne k' k h, ih]

/-- The folded frequency map counts occurrences. -/
theorem lookupFreq_foldl (l : List (String × String)) :
    ∀ (acc : List ((String × String) × Nat)) (k : String × String),
      lookupFreq (List.foldl bumpFreq acc l) k = lookupFreq acc k + l.count k := by
  induction l with
  | nil => intro acc k; simp
  | cons k0 rest ih =>
    intro acc k
    have hc : (k0 :: rest).count k = rest.count k + (if k = k0 then 1 else 0) := by
      by_cases h : k = k0
      · subst h; simp [List.count_cons]
      · have h' : ¬ k0 = k := fun hh => h hh.symm
        simp [List.count_cons, h, h']
    rw [List.foldl_cons, ih, lookupFreq_bumpFreq, hc]
    omega

/-- `buildFreq` stores each key's occurrence count. -/
theorem lookupFreq_buildFreq (l : List (String × String)) (k : String × String) :
    lookupFreq (buildFreq l) k = l.count k := by
  simpa [lookupFreq] using lookupFreq_foldl l [] k

/-- Keys of a bumped map: unchanged when the key is present, else the new
key is appended. -/
theorem bumpFreq_keys (f : List ((String × String) × Nat)) (k0 : String × String) :
    (bumpFreq f k0).map Prod.fst =
      if k0 ∈ f.map Prod.fst then f.map Prod.fst else f.map Prod.fst ++ [k0] := by
  induction f with
  | nil => simp [bumpFreq]
  | cons p rest ih =>
    obtain ⟨k', n⟩ := p
    by_cases h : k' = k0
    · subst h; simp [bumpFreq]
    · have h2 : ¬ k0 = k' := fun hh => h hh.symm
      by_cases hm : k0 ∈ rest.map Prod.fst <;> simp [bumpFreq, h, h2, hm, ih]

/-- Every key of the folded map comes from the accumulator or the input. -/
theorem foldl_bumpFreq_keys (l : List (String × String)) :
    ∀ (acc : List ((String × String) × Nat)) (k : String × String),
      k ∈ (List.foldl bumpFreq acc l).map Prod.fst → k ∈ acc.map Prod.fst ∨ k ∈ l := by
  induction l with
  | nil => intro acc k h; left; simpa using h
  | cons k0 rest ih =>
    intro acc k h
    rcases ih (bumpFreq acc k0) k h with h2 | h2
    · rw [bumpFreq_keys] at h2
      by_cases hm : k0 ∈ acc.map Prod.fst
      · rw [if_pos hm] at h2; exact Or.inl h2
      · rw [if_neg hm] at h2
        rcases List.mem_append.mp h2 with h3 | h3
        · exact Or.inl h3
        · right; simp at h3; simp [h3]
    · right; simp [h2]

/-- Every key of `buildFreq l` occurs in `l`. -/
theorem buildFreq_keys_sub (l : List (String × String)) (k : String × String) :
    k ∈ (buildFreq l).map Prod.fst → k ∈ l := by
  intro h
  rcases foldl_bumpFreq_keys l [] k h with h2 | h2
  · simp at h2
  · exact h2

/-- Bumping preserves distinctness of the keys. -/
theorem bumpFreq_keys_nodup (f : List ((String × String) × Nat)) (k0 : String × String)
    (h : (f.map Prod.fst).Nodup) : ((bumpFreq f k0).map Prod.fst).Nodup := by
  rw [bumpFreq_keys]
  by_cases hm : k0 ∈ f.map Prod.fst
  · simpa [hm] using h
  · rw [if_neg hm, List.nodup_append]
    refine ⟨h, List.nodup_singleton k0, ?_⟩
    intro a ha hb
    simp at hb
    subst hb
    exact hm ha

/-- The folded map's keys are distinct. -/
theorem foldl_bumpFreq_nodup (l : List (String × String)) :
    ∀ acc : List ((String × String) × Nat),
      (acc.map Prod.fst).Nodup → ((List.foldl bumpFreq acc l).map Prod.fst).Nodup := by
  induction l with
  | nil => intro acc h; simpa using h
  | cons k0 rest ih => intro acc h; exact ih (bumpFreq acc k0) (bumpFreq_keys_nodup acc k0 h)

/-- On a key-distinct map, membership determines the looked-up value. -/
theorem lookupFreq_of_mem (f : List ((String × String) × Nat)) (k : String × String) (n : Nat) :
    (f.map Prod.fst).Nodup → (k, n) ∈ f → lookupFreq f k = n := by
  induction f with
  | nil => intro _ hm; simp at hm
  | cons p rest ih =>
    intro h hm
    obtain ⟨k', n'⟩ := p
    have h2 : k' ∉ rest.map Prod.fst ∧ (rest.map Prod.fst).Nodup := by simpa using h
    rcases List.mem_cons.mp hm with he | hm2
    · cases he
      exact lookupFreq_cons_eq k n rest
    · have hk : ¬ k' = k := by
        intro hkk
        subst hkk
        exact h2.1 (List.mem_map.mpr ⟨(k', n), hm2, rfl⟩)
      rw [lookupFreq_cons_ne k' k hk]
      exact ih h2.2 hm2

/-- A non-zero looked-up value identifies a map entry. -/
theorem mem_of_lookupFreq (f : List ((String × String) × Nat)) (k : String × String)
    (h : lookupFreq f k ≠ 0) : (k, lookupFreq f k) ∈ f := by
  rcases hf : f.find? (fun p => p.1 = k) with _ | p
  · simp [lookupFreq, hf] at h
  · have hp : p ∈ f := List.mem_of_find?_eq_some hf
    have hpe : p.1 = k := by simpa using List.find?_some hf
    have hv : lookupFreq f k = p.2 := by simp [lookupFreq, hf]
    rw [hv, show (k, p.2) = p from by rw [← hpe]]
    exact hp

/-- `pickBest` returns an element of the candidate list. -/
theorem pickBest_mem :
    ∀ (l : List ((String × String) × Nat)) (b : (String × String) × Nat),
      pickBest b l ∈ b :: l := by
  intro l
  induction l with
  | nil => intro b; simp [pickBest]
  | cons x rest ih =>
    intro b
    by_cases h : freqBeats x b = true
    · have := ih x
      simp only [pickBest, h, if_true]
      rcases List.mem_cons.mp this with h2 | h2
      · simp [h2]
      · simp [List.mem_cons.mpr (Or.inr (List.mem_cons.mpr (Or.inr h2)))]
    · have hb : freqBeats x b = false := by simpa using h
      have := ih b
      simp only [pickBest, hb, Bool.false_eq_true, if_false]
      rcases List.mem_cons.mp this with h2 | h2
      · simp [h2]
      · simp [List.mem_cons.mpr (Or.inr (List.mem_cons.mpr (Or.inr h2)))]

/-- Arithmetic reading of `freqBeats`. -/
theorem freqBeats_iff (a b : (String × String) × Nat) :
    freqBeats a b = true ↔ (b.2 < a.2 ∨ (a.2 = b.2 ∧ b.1.2.length < a.1.2.length)) := by
  simp [freqBeats]

/-- An entry beaten by a strictly better one cannot beat what the better
one fails to beat. -/
theorem freqBeats_chain1 (y b r : (String × String) × Nat)
    (h1 : freqBeats y b = true) (h2 : freqBeats y r = false) : freqBeats b r = false := by
  rw [freqBeats_iff] at h1
  rw [Bool.eq_false_iff, Ne, freqBeats_iff] at h2 ⊢
  push_neg at h2 ⊢
  rcases h1 with h1 | h1
  · exact ⟨by omega, fun hbr => by omega⟩
  · refine ⟨by omega, fun hbr => ?_⟩
    have := h2.2 (by omega)
    omega

/-- Failing to beat is transitive through the current best. -/
theorem freqBeats_chain2 (y b r : (String × String) × Nat)
    (h1 : freqBeats y b = false) (h2 : freqBeats b r = false) : freqBeats y r = false := by
  rw [Bool.eq_false_iff, Ne, freqBeats_iff] at h1 h2 ⊢
  push_neg at h1 h2 ⊢
  refine ⟨by omega, fun hyr => ?_⟩
  have hb := h1.2 (by omega)
  have hr := h2.2 (by omega)
  omega

/-- No candidate strictly beats the entry `pickBest` returns. -/
theorem pickBest_not_beaten :
    ∀ (l : List ((String × String) × Nat)) (b x : (String × String) × Nat),
      x ∈ b :: l → freqBeats x (pickBest b l) = false := by
  intro l
  induction l with
  | nil =>
    intro b x hx
    rcases List.mem_cons.mp hx with h | h
    · subst h; simp [pickBest, freqBeats]
    · simp at h
  | cons y rest ih =>
    intro b x hx
    by_cases h : freqBeats y b = true
    · simp only [pickBest, h, if_true]
      rcases List.mem_cons.mp hx with h2 | h2
      · rw [h2]
        exact freqBeats_chain1 y b (pickBest y rest) h (ih y y (List.mem_cons_self y rest))
      · exact ih y x h2
    · have hb : freqBeats y b = false := by simpa using h
      simp only [pickBest, hb, Bool.false_eq_true, if_false]
      rcases List.mem_cons.mp hx with h2 | h2
      · rw [h2]
        exact ih b b (List.mem_cons_self b rest)
      · rcases List.mem_cons.mp h2 with h3 | h3
        · rw [h3]
          exact freqBeats_chain2 y b (pickBest b rest) hb (ih b b (List.mem_cons_self b rest))
        · exact ih b x (List.mem_cons_of_mem b h3)

/-- A non-empty input yields a non-empty frequency map. -/
theorem buildFreq_ne_nil (l : List (String × String)) (h : l ≠ []) : buildFreq l ≠ [] := by
  have step : ∀ (rest : List (String × String)) (acc : List ((String × String) × Nat)),
      acc ≠ [] → List.foldl bumpFreq acc rest ≠ [] := by
    intro rest
    induction rest with
    | nil => intro acc ha; simpa using ha
    | cons k0 r ih =>
      intro acc ha
      have hb : bumpFreq acc k0 ≠ [] := by
        cases acc with
        | nil => simp [bumpFreq]
        | cons p r2 =>
          obtain ⟨k', n⟩ := p
          by_cases h2 : k' = k0 <;> simp [bumpFreq, h2]
      rw [List.foldl_cons]
      exact ih (bumpFreq acc k0) hb
  cases l with
  | nil => exact absurd rfl h
  | cons k rest =>
    rw [show buildFreq (k :: rest) = List.foldl bumpFreq (bumpFreq [] k) rest from rfl]
    exact step rest (bumpFreq [] k) (by simp [bumpFreq])

/-- The resolved family is one of the cards' grouping keys, of maximal
membership count, ties broken by the longer class string. -/
theorem mctc_result_mem_and_max (elems : List CardSig) (h : elems ≠ []) :
    _most_common_tag_and_class elems ∈ elems.map sigKey ∧
    ∀ k ∈ elems.map sigKey,
      (elems.map sigKey).count k < (elems.map sigKey).count (_most_common_tag_and_class elems) ∨
      ((elems.map sigKey).count k = (elems.map sigKey).count (_most_common_tag_and_class elems) ∧
        k.2.length ≤ (_most_common_tag_and_class elems).2.length) := by
  have hkeys : elems.map sigKey ≠ [] := by
    intro hc
    exact h (by simpa using hc)
  have hfne : buildFreq (elems.map sigKey) ≠ [] := buildFreq_ne_nil _ hkeys
  rcases hbf : buildFreq (elems.map sigKey) with _ | ⟨f, fs⟩
  · exact absurd hbf hfne
  have hred : _most_common_tag_and_class elems = (pickBest f fs).1 := by
    rcases elems with _ | ⟨e0, erest⟩
    · exact absurd rfl h
    · rw [List.map_cons] at hbf
      simp [_most_common_tag_and_class, hbf]
  have hnd : ((buildFreq (elems.map sigKey)).map Prod.fst).Nodup :=
    foldl_bumpFreq_nodup (elems.map sigKey) [] (by simp)
  have hmemBuild : pickBest f fs ∈ buildFreq (elems.map sigKey) := by
    rw [hbf]
    exact pickBest_mem fs f
  have hmemKeys : (pickBest f fs).1 ∈ elems.map sigKey :=
    buildFreq_keys_sub _ _ (List.mem_map_of_mem Prod.fst hmemBuild)
  have hval : (pickBest f fs).2 = (elems.map sigKey).count (pickBest f fs).1 := by
    have h1 : lookupFreq (buildFreq (elems.map sigKey)) (pickBest f fs).1 = (pickBest f fs).2 :=
      lookupFreq_of_mem _ _ _ hnd hmemBuild
    rw [← h1, lookupFreq_buildFreq]
  constructor
  · rw [hred]
    exact hmemKeys
  · intro k hk
    have hne : (elems.map sigKey).count k ≠ 0 := by
      intro hc
      exact (List.count_eq_zero.mp hc) hk
    have hlk : lookupFreq (buildFreq (elems.map sigKey)) k = (elems.map sigKey).count k :=
      lookupFreq_buildFreq _ _
    have hmemEntry : (k, (elems.map sigKey).count k) ∈ buildFreq (elems.map sigKey) := by
      have := mem_of_lookupFreq (buildFreq (elems.map sigKey)) k (by rw [hlk]; exact hne)
      rw [hlk] at this
      exact this
    have hbeat : freqBeats (k, (elems.map sigKey).count k) (pickBest f fs) = false := by
      apply pickBest_not_beaten fs f
      rw [← hbf]
      exact hmemEntry
    rw [Bool.eq_false_iff, Ne, freqBeats_iff] at hbeat
    push_neg at hbeat
    have hbeat' : (elems.map sigKey).count k ≤ (pickBest f fs).2 ∧
        ((elems.map sigKey).count k = (pickBest f fs).2 →
          k.2.length ≤ (pickBest f fs).1.2.length) := by
      simpa using hbeat
    rw [hred]
    by_cases hc : (elems.map sigKey).count k = (pickBest f fs).2
    · right
      exact ⟨by omega, hbeat'.2 hc⟩
    · left
      have := hbeat'.1
      omega

/-- Claim C6 (amended): family resolution groups the scanned cards by
`(tag, filtered class string)` — the filtering drops class tokens
containing a digit or a state keyword — and picks a grouping key of
maximal membership count, tie-broken by the longer class string (so 9
`div.card` plus 1 `div.promo` resolves to `div.card`).  When no classes
survive filtering, the cards group under the empty class string and the
result's class string is empty; the raw first-card fallback is reachable
only for an empty card list, where the source yields `("div", "")`. -/
theorem family_resolution_amended :
    (∀ elems : List CardSig, elems ≠ [] →
      _most_common_tag_and_class elems ∈ elems.map sigKey ∧
      ∀ k ∈ elems.map sigKey,
        (elems.map sigKey).count k <
            (elems.map sigKey).count (_most_common_tag_and_class elems) ∨
        ((elems.map sigKey).count k =
            (elems.map sigKey).count (_most_common_tag_and_class elems) ∧
          k.2.length ≤ (_most_common_tag_and_class elems).2.length)) ∧
    (∀ elems : List CardSig, elems ≠ [] →
      (∀ e ∈ elems, keepClassTokens e.classAttr = []) →
      (_most_common_tag_and_class elems).2 = "") ∧
    _most_common_tag_and_class nineOneCards = ("div", "card") ∧
    _most_common_tag_and_class [] = ("div", "") := by
  refine ⟨fun elems h => mctc_result_mem_and_max elems h, ?_, by rfl, by rfl⟩
  intro elems h hall
  obtain ⟨e, he, hk⟩ := List.mem_map.mp (mctc_result_mem_and_max elems h).1
  rw [← hk]
  simp [sigKey, hall e he, String.intercalate]

/-- Witness for claim C6 at concrete inputs: the majority family on nine
`div.card` plus one `div.promo`, and the empty-list fallback. -/
theorem family_resolution_amended_witness :
    _most_common_tag_and_class nineOneCards ∈ nineOneCards.map sigKey ∧
    _most_common_tag_and_class [] = ("div", "") :=
  ⟨(family_resolution_amended.1 nineOneCards (by decide)).1, family_resolution_amended.2.2.2⟩

/-- Claim C6's raw-fallback clause is false on the code: on a single card
whose only class token contains a digit, no classes survive filtering, yet
the result is the tag paired with the empty class string — not the card's
raw tag/class as the claim states. -/
theorem family_resolution_raw_fallback_counterexample :
    _most_common_tag_and_class [⟨"div", "item2"⟩] = ("div", "") ∧
    keepClassTokens "item2" = [] ∧
    ("div", "") ≠ (("div", "item2") : String × String) := by
  exact ⟨rfl, rfl, by decide⟩

/-! ### Card candidate scanner (claim C4) -/

/-- The filtered card-like set is a subset of the scanned nodes. -/
theorem score_card_like_length_le (l : List DomElem) : (_score_card_like l).length ≤ l.length :=
  List.length_filter_le _ l

/-- Invariant of the candidate loop: any returned container passed both
the `[2, 160]` node-count gate and the `≥ 2` filtered-size gate. -/
theorem scanCandidates_sound (min_y ebc : Nat) :
    ∀ (cands : List DomElem) (bs : Nat × Nat) (bc : List DomElem) (cont : Option DomElem),
      (∀ c, cont = some c →
        2 ≤ (_score_card_like (_children_or_descendants c)).length ∧
        (_children_or_descendants c).length ≤ 160) →
      ∀ c, (scanCandidates min_y ebc cands bs bc cont).2 = some c →
        2 ≤ (_score_card_like (_children_or_descendants c)).length ∧
        (_children_or_descendants c).length ≤ 160 := by
  intro cands
  induction cands with
  | nil =>
    intro bs bc cont hinv c hc
    exact hinv c (by simpa [scanCandidates] using hc)
  | cons x rest ih =>
    intro bs bc cont hinv c hc
    simp only [scanCandidates] at hc
    split_ifs at hc with h1 h2 h3 h4 h5 h6 h7
    · exact ih bs bc cont hinv c hc
    · exact ih bs bc cont hinv c hc
    · exact ih bs bc cont hinv c hc
    · have hx : 2 ≤ (_score_card_like (_children_or_descendants x)).length ∧
          (_children_or_descendants x).length ≤ 160 := by
        rw [not_or] at h2
        constructor
        · omega
        · omega
      simp at hc
      exact hc ▸ hx
    · simp at hc
      exact hinv c hc
    · have hx : 2 ≤ (_score_card_like (_children_or_descendants x)).length ∧
          (_children_or_descendants x).length ≤ 160 := by
        rw [not_or] at h2
        constructor
        · omega
        · omega
      refine ih _ _ _ (fun c' hc' => ?_) c hc
      simp at hc'
      exact hc' ▸ hx
    · exact ih _ _ _ hinv c hc

/-- Claim C4 (amended): every container the scanner returns has a filtered
card-like set of size inside [2, 160] (in particular a container with
exactly 1 filtered card-like child is never returned as best); and a sole
candidate with exactly 2 filtered card-like children is accepted provided
it is not skipped by the header cutoff and its unfiltered child/descendant
count is at most 160. -/
theorem scanner_size_gate :
    (∀ (min_y : Nat) (cands : List DomElem) (mc ebc : Nat) (cards : List DomElem) (c : DomElem),
      find_product_cards min_y cands mc ebc = (cards, some c) →
      2 ≤ (_score_card_like (_children_or_descendants c)).length ∧
      (_score_card_like (_children_or_descendants c)).length ≤ 160) ∧
    (∀ (min_y : Nat) (c : DomElem),
      ¬(min_y ≠ 0 ∧ c.data.y ≠ 0 ∧ c.data.y + 20 < min_y) →
      (_children_or_descendants c).length ≤ 160 →
      (_score_card_like (_children_or_descendants c)).length = 2 →
      find_product_cards min_y [c] 300 8 =
        (_score_card_like (_children_or_descendants c), some c)) := by
  constructor
  · intro min_y cands mc ebc cards c hc
    have hsnd : (find_product_cards min_y cands mc ebc).2 = some c := by rw [hc]
    have hb := scanCandidates_sound min_y ebc (cands.take mc) (0, 0) [] none
      (fun c' hc' => by simp at hc') c hsnd
    have hle := score_card_like_length_le (_children_or_descendants c)
    exact ⟨hb.1, by omega⟩
  · intro min_y c hskip hbound hf2
    have hle := score_card_like_length_le (_children_or_descendants c)
    have hcond2 : ¬((_children_or_descendants c).length < 2 ∨
        160 < (_children_or_descendants c).length) := by omega
    have hcond3 : ¬ (_score_card_like (_children_or_descendants c)).length < 2 := by omega
    have hsc : scoreGt ((_score_card_like (_children_or_descendants c)).length,
        uniformity (_score_card_like (_children_or_descendants c))) (0, 0) = true := by
      simp only [scoreGt]
      simp
      omega
    have hne : ¬(8 ≤ (_score_card_like (_children_or_descendants c)).length ∧
        2 ≤ uniformity (_score_card_like (_children_or_descendants c))) := by omega
    show scanCandidates min_y 8 (List.take 300 [c]) (0, 0) [] none = _
    rw [show List.take 300 [c] = [c] from rfl]
    simp only [scanCandidates]
    rw [if_neg hskip, if_neg hcond2, if_neg hcond3, if_pos hsc, if_neg hne]

/-- Witness for claim C4's acceptance clause: a sole two-child candidate,
both children card-like, is accepted. -/
theorem scanner_size_gate_witness :
    find_product_cards 0 [twoCardContainer] 300 8 =
      (_score_card_like (_children_or_descendants twoCardContainer), some twoCardContainer) :=
  scanner_size_gate.2 0 twoCardContainer (by simp) (by decide) (by decide)

/-- Claim C4's acceptance clause as stated is false on the code: a sole
candidate with 161 direct children of which exactly 2 are card-like has a
filtered set size inside [2, 160], yet the scanner rejects it, because the
[2, 160] gate is applied to the unfiltered child count. -/
theorem scanner_filtered_gate_counterexample :
    (_score_card_like (_children_or_descendants fatContainer)).length = 2 ∧
    (_children_or_descendants fatContainer).length = 161 ∧
    find_product_cards 0 [fatContainer] 300 8 = ([], none) := by
  set_option maxRecDepth 40000 in
  exact ⟨by rfl, by rfl, by rfl⟩

/-! ### Ordered dictionary lemmas -/

/-- Assigning an already-present head key. -/
theorem dictSet_cons_eq (k0 v0 k v : String) (rest : Row) (h : k0 = k) :
    dictSet ((k0, v0) :: rest) k v = (k, v) :: rest := by
  simp only [dictSet]
  rw [if_pos h]

/-- Assigning past a different head key. -/
theorem dictSet_cons_ne (k0 v0 k v : String) (rest : Row) (h : ¬ k0 = k) :
    dictSet ((k0, v0) :: rest) k v = (k0, v0) :: dictSet rest k v := by
  simp only [dictSet]
  rw [if_neg h]

/-- Membership on a cons cell. -/
theorem dictHas_cons (k0 v0 : String) (rest : Row) (k' : String) :
    dictHas ((k0, v0) :: rest) k' = (decide (k0 = k') || dictHas rest k') := by
  simp [dictHas]

/-- Lookup hitting the head key. -/
theorem dictGet_cons_eq (k0 v0 : String) (rest : Row) (k' : String) (h : k0 = k') :
    dictGet ((k0, v0) :: rest) k' = some v0 := by
  simp [dictGet, List.find?, h]

/-- Lookup skipping a different head key. -/
theorem dictGet_cons_ne (k0 v0 : String) (rest : Row) (k' : String) (h : ¬ k0 = k') :
    dictGet ((k0, v0) :: rest) k' = dictGet rest k' := by
  simp [dictGet, List.find?, h]

/-- Membership after an assignment. -/
theorem dictHas_dictSet (d : Row) (k v k' : String) :
    dictHas (dictSet d k v) k' = (dictHas d k' || decide (k' = k)) := by
  induction d with
  | nil =>
    show dictHas [(k, v)] k' = _
    rw [dictHas_cons]
    by_cases h : k' = k
    · rw [decide_eq_true h, decide_eq_true h.symm]
      rfl
    · have h' : ¬ k = k' := fun hh => h hh.symm
      rw [decide_eq_false h, decide_eq_false h']
      rfl
  | cons p rest ih =>
    obtain ⟨k0, v0⟩ := p
    by_cases h : k0 = k
    · rw [dictSet_cons_eq k0 v0 k v rest h, dictHas_cons, dictHas_cons]
      by_cases h2 : k' = k
      · have ha : k = k' := h2.symm
        have hb : k0 = k' := by rw [h]; exact ha
        rw [decide_eq_true ha, decide_eq_true hb, decide_eq_true h2]
        simp
      · have ha : ¬ k = k' := fun hh => h2 hh.symm
        have hb : ¬ k0 = k' := by rw [h]; exact ha
        rw [decide_eq_false ha, decide_eq_false hb, decide_eq_false h2]
        simp
    · rw [dictSet_cons_ne k0 v0 k v rest h, dictHas_cons, dictHas_cons, ih, Bool.or_assoc]

/-- Lookup after an assignment. -/
theorem dictGet_dictSet (d : Row) (k v k' : String) :
    dictGet (dictSet d k v) k' = if k' = k then some v else dictGet d k' := by
  induction d with
  | nil =>
    show dictGet [(k, v)] k' = _
    by_cases h : k' = k
    · rw [if_pos h, dictGet_cons_eq k v [] k' h.symm]
    · have h' : ¬ k = k' := fun hh => h hh.symm
      rw [if_neg h, dictGet_cons_ne k v [] k' h']
  | cons p rest ih =>
    obtain ⟨k0, v0⟩ := p
    by_cases h : k0 = k
    · rw [dictSet_cons_eq k0 v0 k v rest h]
      by_cases h2 : k' = k
      · rw [if_pos h2, dictGet_cons_eq k v rest k' h2.symm]
      · have h' : ¬ k = k' := fun hh => h2 hh.symm
        have h0' : ¬ k0 = k' := by rw [h]; exact h'
        rw [if_neg h2, dictGet_cons_ne k v rest k' h', dictGet_cons_ne k0 v0 rest k' h0']
    · rw [dictSet_cons_ne k0 v0 k v rest h]
      by_cases h2 : k0 = k'
      · have hk' : ¬ k' = k := fun hh => h (h2.trans hh)
        rw [if_neg hk', dictGet_cons_eq k0 v0 (dictSet rest k v) k' h2,
          dictGet_cons_eq k0 v0 rest k' h2]
      · rw [dictGet_cons_ne k0 v0 (dictSet rest k v) k' h2,
          dictGet_cons_ne k0 v0 rest k' h2, ih]

/-! ### Detail-page extraction (claim C8) -/

/-- A present key survives the rest of the fold. -/
theorem detail_fold_has_mono (drv : DetailDriver) :
    ∀ (sels : List FieldCfg) (out : Row) (k : String), dictHas out k = true →
      dictHas (List.foldl (fun o cfg => dictSet o (cfgName cfg) (detailValue drv cfg)) out sels)
        k = true := by
  intro sels
  induction sels with
  | nil => intro out k h; simpa using h
  | cons c0 rest ih =>
    intro out k h
    rw [List.foldl_cons]
    exact ih _ k (by rw [dictHas_dictSet, h]; rfl)

/-- Every configured name is a key of the folded row. -/
theorem detail_fold_has (drv : DetailDriver) :
    ∀ (sels : List FieldCfg) (out : Row), ∀ cfg ∈ sels,
      dictHas (List.foldl (fun o c => dictSet o (cfgName c) (detailValue drv c)) out sels)
        (cfgName cfg) = true := by
  intro sels
  induction sels with
  | nil => intro out cfg h; simp at h
  | cons c0 rest ih =>
    intro out cfg hm
    rw [List.foldl_cons]
    rcases List.mem_cons.mp hm with he | hm2
    · rw [he]
      refine detail_fold_has_mono drv rest _ (cfgName c0) ?_
      rw [dictHas_dictSet]
      simp
    · exact ih _ cfg hm2

/-- Folding selectors whose names avoid `k` leaves `k`'s value alone. -/
theorem detail_fold_get_skip (drv : DetailDriver) :
    ∀ (sels : List FieldCfg) (out : Row) (k : String),
      (∀ cfg ∈ sels, cfgName cfg ≠ k) →
      dictGet (List.foldl (fun o c => dictSet o (cfgName c) (detailValue drv c)) out sels) k =
        dictGet out k := by
  intro sels
  induction sels with
  | nil => intro out k _; rfl
  | cons c0 rest ih =>
    intro out k h
    rw [List.foldl_cons, ih _ k (fun cfg hm => h cfg (List.mem_cons_of_mem c0 hm)),
      dictGet_dictSet]
    rw [if_neg (fun hh => h c0 (List.mem_cons_self c0 rest) hh.symm)]

/-- With distinct names, each configured name maps to its own value. -/
theorem detail_fold_get (drv : DetailDriver) :
    ∀ (sels : List FieldCfg) (out : Row), (sels.map cfgName).Nodup →
      ∀ cfg ∈ sels,
        dictGet (List.foldl (fun o c => dictSet o (cfgName c) (detailValue drv c)) out sels)
          (cfgName cfg) = some (detailValue drv cfg) := by
  intro sels
  induction sels with
  | nil => intro out _ cfg h; simp at h
  | cons c0 rest ih =>
    intro out hnd cfg hm
    have hnd' : (rest.map cfgName).Nodup := by
      simp only [List.map_cons, List.nodup_cons] at hnd
      exact hnd.2
    have hni : cfgName c0 ∉ rest.map cfgName := by
      simp only [List.map_cons, List.nodup_cons] at hnd
      exact hnd.1
    rw [List.foldl_cons]
    rcases List.mem_cons.mp hm with he | hm2
    · rw [he]
      rw [detail_fold_get_skip drv rest _ (cfgName c0)
        (fun cfg2 hm2 hψ => hni (hψ ▸ List.mem_map_of_mem cfgName hm2)), dictGet_dictSet]
      simp
    · exact ih _ hnd' cfg hm2

/-- Claim C8: for every list of field selectors, detail-page extraction
returns a row containing every configured field name; with the data
model's unique names, the stored value is the trimmed visible text when
the (defaulted, lowercased) attr is `"text"`, the named attribute's value
(falsy becoming `""`) otherwise, and the empty string when the selector
resolves nothing — no exception reaches the caller (the embedding is a
total function). -/
theorem detail_extraction_shape (drv : DetailDriver) (sels : List FieldCfg) :
    (∀ cfg ∈ sels, dictHas (extract_fields_from_detail_page drv sels) (cfgName cfg) = true) ∧
    ((sels.map cfgName).Nodup → ∀ cfg ∈ sels,
      dictGet (extract_fields_from_detail_page drv sels) (cfgName cfg) =
        some (detailValue drv cfg)) ∧
    ((sels.map cfgName).Nodup → ∀ cfg ∈ sels, drv.findOne cfg.selector = none →
      dictGet (extract_fields_from_detail_page drv sels) (cfgName cfg) = some "") ∧
    ((sels.map cfgName).Nodup → ∀ cfg ∈ sels, ∀ el, drv.findOne cfg.selector = some el →
      cfgAttr cfg = "text" →
      dictGet (extract_fields_from_detail_page drv sels) (cfgName cfg) =
        some (strTrim el.text)) ∧
    ((sels.map cfgName).Nodup → ∀ cfg ∈ sels, ∀ el, drv.findOne cfg.selector = some el →
      cfgAttr cfg ≠ "text" →
      dictGet (extract_fields_from_detail_page drv sels) (cfgName cfg) =
        some ((el.attrs (cfgAttr cfg)).getD "")) := by
  refine ⟨fun cfg hm => detail_fold_has drv sels [] cfg hm,
    fun hnd cfg hm => detail_fold_get drv sels [] hnd cfg hm, ?_, ?_, ?_⟩
  · intro hnd cfg hm hres
    exact (detail_fold_get drv sels [] hnd cfg hm).trans (by simp [detailValue, hres])
  · intro hnd cfg hm el hres hattr
    exact (detail_fold_get drv sels [] hnd cfg hm).trans (by simp [detailValue, hres, hattr])
  · intro hnd cfg hm el hres hattr
    exact (detail_fold_get drv sels [] hnd cfg hm).trans (by simp [detailValue, hres, hattr])

/-- Witness for claim C8 at a concrete driver and selector list: a
resolving text field, a resolving attribute field, and a missing one. -/
theorem detail_extraction_shape_witness :
    dictGet (extract_fields_from_detail_page detailDrvA detailCfgs) "Name" = some "Title" ∧
    dictGet (extract_fields_from_detail_page detailDrvA detailCfgs) "Url" = some "u1" ∧
    dictGet (extract_fields_from_detail_page detailDrvA detailCfgs) "Missing" = some "" := by
  have h := (detail_extraction_shape detailDrvA detailCfgs).2.1 (by decide)
  refine ⟨?_, ?_, ?_⟩
  · exact (h ⟨"Name", "h1", "text"⟩ (by decide)).trans (by rfl)
  · exact (h ⟨"Url", "h1", "href"⟩ (by decide)).trans (by rfl)
  · exact (h ⟨"Missing", ".zz", "text"⟩ (by decide)).trans (by rfl)

/-! ### Card field extraction (claim C7) -/

/-- Membership distributes over appended rows. -/
theorem dictHas_append (d1 d2 : Row) (k : String) :
    dictHas (d1 ++ d2) k = (dictHas d1 k || dictHas d2 k) := by
  simp [dictHas, List.any_append]

/-- Assigning an absent key appends the entry. -/
theorem dictSet_absent : ∀ (d : Row) (k v : String),
    dictHas d k = false → dictSet d k v = d ++ [(k, v)] := by
  intro d
  induction d with
  | nil => intro k v _; rfl
  | cons p rest ih =>
    intro k v h
    obtain ⟨k0, v0⟩ := p
    rw [dictHas_cons] at h
    obtain ⟨ha, hb⟩ := Bool.or_eq_false_iff.mp h
    have h1 : ¬ k0 = k := by
      intro hh
      rw [decide_eq_true hh] at ha
      exact Bool.true_eq_false.mp ha
    rw [dictSet_cons_ne k0 v0 k v rest h1, ih k v hb]
    rfl

/-- Distinct indices below 12 give distinct `Text` keys. -/
theorem keyTT : ∀ a, a < 12 → ∀ b, b < 12 → a ≠ b →
    "Text " ++ toString a ≠ "Text " ++ toString b := by decide

/-- Distinct indices below 12 give distinct `Link` keys. -/
theorem keyLL : ∀ a, a < 12 → ∀ b, b < 12 → a ≠ b →
    "Link " ++ toString a ≠ "Link " ++ toString b := by decide

/-- Distinct indices below 12 give distinct `Image` keys. -/
theorem keyII : ∀ a, a < 12 → ∀ b, b < 12 → a ≠ b →
    "Image " ++ toString a ≠ "Image " ++ toString b := by decide

/-- `Text` keys never collide with `Link` keys (indices below 12). -/
theorem keyTL : ∀ a, a < 12 → ∀ b, b < 12 →
    "Text " ++ toString a ≠ "Link " ++ toString b := by decide

/-- `Text` keys never collide with `Image` keys (indices below 12). -/
theorem keyTI : ∀ a, a < 12 → ∀ b, b < 12 →
    "Text " ++ toString a ≠ "Image " ++ toString b := by decide

/-- `Link` keys never collide with `Image` keys (indices below 12). -/
theorem keyLI : ∀ a, a < 12 → ∀ b, b < 12 →
    "Link " ++ toString a ≠ "Image " ++ toString b := by decide

/-- `Description` collides with no `Text` key (indices below 12). -/
theorem keyDT : ∀ a, a < 12 → "Description" ≠ "Text " ++ toString a := by decide

/-- `Description` collides with no `Link` key (indices below 12). -/
theorem keyDL : ∀ a, a < 12 → "Description" ≠ "Link " ++ toString a := by decide

/-- `Description` collides with no `Image` key (indices below 12). -/
theorem keyDI : ∀ a, a < 12 → "Description" ≠ "Image " ++ toString a := by decide

/-- Any key of a numbered-entry row names one of its indices. -/
theorem dictHas_numberedEntries_imp (base : String) :
    ∀ (l : List String) (i : Nat) (k : String),
      dictHas (numberedEntries base i l) k = true →
      ∃ j, j < l.length ∧ k = base ++ toString (i + j) := by
  intro l
  induction l with
  | nil => intro i k h; simp [numberedEntries, dictHas] at h
  | cons v rest ih =>
    intro i k h
    rw [numberedEntries, dictHas_cons] at h
    by_cases he : base ++ toString i = k
    · refine ⟨0, by simp, ?_⟩
      rw [Nat.add_zero]
      exact he.symm
    · rw [decide_eq_false he, Bool.false_or] at h
      obtain ⟨j, hj, hk⟩ := ih (i + 1) k h
      exact ⟨j + 1, by simpa using Nat.succ_lt_succ hj,
        by rw [hk, show i + 1 + j = i + (j + 1) from by omega]⟩

/-- A key distinct from all of a numbered row's keys is absent from it. -/
theorem dictHas_numberedEntries_false (base : String) (l : List String) (i : Nat) (k : String)
    (h : ∀ j, j < l.length → k ≠ base ++ toString (i + j)) :
    dictHas (numberedEntries base i l) k = false := by
  cases hdh : dictHas (numberedEntries base i l) k with
  | false => rfl
  | true =>
    obtain ⟨j, hj, hk⟩ := dictHas_numberedEntries_imp base l i k hdh
    exact absurd hk (h j hj)

/-- The guarded `Text i` loop appends the numbered entries when no target
key is present (the guard never fires). -/
theorem addTexts_append :
    ∀ (l : List String) (d : Row) (i : Nat), i + l.length ≤ 12 →
      (∀ j, j < l.length → dictHas d ("Text " ++ toString (i + j)) = false) →
      addTexts d i l = d ++ numberedEntries "Text " i l := by
  intro l
  induction l with
  | nil => intro d i _ _; simp [addTexts, numberedEntries]
  | cons t rest ih =>
    intro d i hb habs
    have h0 : dictHas d ("Text " ++ toString i) = false := by
      have := habs 0 (by simp)
      rwa [Nat.add_zero] at this
    rw [addTexts, if_neg (by rw [h0]; exact Bool.false_ne_true),
      dictSet_absent d ("Text " ++ toString i) t h0, numberedEntries]
    have hlen : i + 1 + rest.length ≤ 12 := by
      simp only [List.length_cons] at hb
      omega
    rw [ih (d ++ [("Text " ++ toString i, t)]) (i + 1) hlen ?_]
    · simp [List.append_assoc]
    · intro j hj
      rw [dictHas_append]
      have h1 := habs (j + 1) (by simpa using Nat.succ_lt_succ hj)
      rw [show i + (j + 1) = i + 1 + j from by omega] at h1
      have hne : ("Text " ++ toString i) ≠ ("Text " ++ toString (i + 1 + j)) :=
        keyTT i (by omega) (i + 1 + j) (by omega) (by omega)
      rw [h1, dictHas_cons, decide_eq_false hne]
      rfl

/-- The unguarded numbered loops (`Link i`, `Image i`) append their
entries when no target key is present. -/
theorem addNumbered_append (base : String)
    (hinj : ∀ a, a < 12 → ∀ b, b < 12 → a ≠ b → base ++ toString a ≠ base ++ toString b) :
    ∀ (l : List String) (d : Row) (i : Nat), i + l.length ≤ 12 →
      (∀ j, j < l.length → dictHas d (base ++ toString (i + j)) = false) →
      addNumbered base d i l = d ++ numberedEntries base i l := by
  intro l
  induction l with
  | nil => intro d i _ _; simp [addNumbered, numberedEntries]
  | cons t rest ih =>
    intro d i hb habs
    have h0 : dictHas d (base ++ toString i) = false := by
      have := habs 0 (by simp)
      rwa [Nat.add_zero] at this
    rw [addNumbered, dictSet_absent d (base ++ toString i) t h0, numberedEntries]
    have hlen : i + 1 + rest.length ≤ 12 := by
      simp only [List.length_cons] at hb
      omega
    rw [ih (d ++ [(base ++ toString i, t)]) (i + 1) hlen ?_]
    · simp [List.append_assoc]
    · intro j hj
      rw [dictHas_append]
      have h1 := habs (j + 1) (by simpa using Nat.succ_lt_succ hj)
      rw [show i + (j + 1) = i + 1 + j from by omega] at h1
      have hne : (base ++ toString i) ≠ (base ++ toString (i + 1 + j)) :=
        hinj i (by omega) (i + 1 + j) (by omega) (by omega)
      rw [h1, dictHas_cons, decide_eq_false hne]
      rfl

/-- The three numbered loops on a row holding at most the `Text 1` key
append their entries in order. -/
theorem card_build_chain (d0 : Row) (off : Nat) (texts links imgs : List String)
    (hoff : 1 ≤ off ∧ off ≤ 2)
    (hd0 : ∀ k, dictHas d0 k = true → k = "Text " ++ toString 1)
    (hT : ∀ j, j < (texts.take 8).length → dictHas d0 ("Text " ++ toString (off + j)) = false) :
    addNumbered "Image "
        (addNumbered "Link " (addTexts d0 off (texts.take 8)) 1 (links.take 10)) 1
        (imgs.take 10) =
      d0 ++ numberedEntries "Text " off (texts.take 8) ++
        numberedEntries "Link " 1 (links.take 10) ++
        numberedEntries "Image " 1 (imgs.take 10) := by
  have htlen : (texts.take 8).length ≤ 8 := by
    rw [List.length_take]
    omega
  have hllen : (links.take 10).length ≤ 10 := by
    rw [List.length_take]
    omega
  have hilen : (imgs.take 10).length ≤ 10 := by
    rw [List.length_take]
    omega
  have e1 : addTexts d0 off (texts.take 8) = d0 ++ numberedEntries "Text " off (texts.take 8) :=
    addTexts_append (texts.take 8) d0 off (by omega) hT
  have e2 : addNumbered "Link " (d0 ++ numberedEntries "Text " off (texts.take 8)) 1
      (links.take 10) =
      d0 ++ numberedEntries "Text " off (texts.take 8) ++
        numberedEntries "Link " 1 (links.take 10) := by
    refine addNumbered_append "Link " (fun a ha b hb hab => keyLL a ha b hb hab)
      (links.take 10) _ 1 (by omega) ?_
    intro j hj
    rw [dictHas_append]
    have hA : dictHas d0 ("Link " ++ toString (1 + j)) = false := by
      cases hdh : dictHas d0 ("Link " ++ toString (1 + j)) with
      | false => rfl
      | true => exact absurd (hd0 _ hdh) (Ne.symm (keyTL 1 (by omega) (1 + j) (by omega)))
    have hB : dictHas (numberedEntries "Text " off (texts.take 8))
        ("Link " ++ toString (1 + j)) = false := by
      refine dictHas_numberedEntries_false "Text " (texts.take 8) off _ ?_
      intro j2 hj2
      exact Ne.symm (keyTL (off + j2) (by omega) (1 + j) (by omega))
    rw [hA, hB]
    rfl
  have e3 : addNumbered "Image "
      (d0 ++ numberedEntries "Text " off (texts.take 8) ++
        numberedEntries "Link " 1 (links.take 10)) 1 (imgs.take 10) =
      d0 ++ numberedEntries "Text " off (texts.take 8) ++
        numberedEntries "Link " 1 (links.take 10) ++
        numberedEntries "Image " 1 (imgs.take 10) := by
    refine addNumbered_append "Image " (fun a ha b hb hab => keyII a ha b hb hab)
      (imgs.take 10) _ 1 (by omega) ?_
    intro j hj
    rw [dictHas_append, dictHas_append]
    have hA : dictHas d0 ("Image " ++ toString (1 + j)) = false := by
      cases hdh : dictHas d0 ("Image " ++ toString (1 + j)) with
      | false => rfl
      | true => exact absurd (hd0 _ hdh) (Ne.symm (keyTI 1 (by omega) (1 + j) (by omega)))
    have hB : dictHas (numberedEntries "Text " off (texts.take 8))
        ("Image " ++ toString (1 + j)) = false := by
      refine dictHas_numberedEntries_false "Text " (texts.take 8) off _ ?_
      intro j2 hj2
      exact Ne.symm (keyTI (off + j2) (by omega) (1 + j) (by omega))
    have hC : dictHas (numberedEntries "Link " 1 (links.take 10))
        ("Image " ++ toString (1 + j)) = false := by
      refine dictHas_numberedEntries_false "Link " (links.take 10) 1 _ ?_
      intro j2 hj2
      exact Ne.symm (keyLI (1 + j2) (by omega) (1 + j) (by omega))
    rw [hA, hB, hC]
    rfl
  rw [e1, e2, e3]

/-- `Description` is absent from the assembled numbered row. -/
theorem card_build_desc_absent (d0 : Row) (off : Nat) (texts links imgs : List String)
    (hoff : off ≤ 2)
    (hd0 : ∀ k, dictHas d0 k = true → k = "Text " ++ toString 1) :
    dictHas (d0 ++ numberedEntries "Text " off (texts.take 8) ++
      numberedEntries "Link " 1 (links.take 10) ++
      numberedEntries "Image " 1 (imgs.take 10)) "Description" = false := by
  have htlen : (texts.take 8).length ≤ 8 := by
    rw [List.length_take]
    omega
  have hllen : (links.take 10).length ≤ 10 := by
    rw [List.length_take]
    omega
  have hilen : (imgs.take 10).length ≤ 10 := by
    rw [List.length_take]
    omega
  rw [dictHas_append, dictHas_append, dictHas_append]
  have h0 : dictHas d0 "Description" = false := by
    cases hdh : dictHas d0 "Description" with
    | false => rfl
    | true => exact absurd (hd0 _ hdh) (keyDT 1 (by omega))
  have h1 : dictHas (numberedEntries "Text " off (texts.take 8)) "Description" = false :=
    dictHas_numberedEntries_false "Text " (texts.take 8) off _
      (fun j hj => keyDT (off + j) (by omega))
  have h2 : dictHas (numberedEntries "Link " 1 (links.take 10)) "Description" = false :=
    dictHas_numberedEntries_false "Link " (links.take 10) 1 _
      (fun j hj => keyDL (1 + j) (by omega))
  have h3 : dictHas (numberedEntries "Image " 1 (imgs.take 10)) "Description" = false :=
    dictHas_numberedEntries_false "Image " (imgs.take 10) 1 _
      (fun j hj => keyDI (1 + j) (by omega))
  rw [h0, h1, h2, h3]
  rfl

/-- Claim C7 (amended): the extracted card row is exactly the optional
`Text 1` title, then at most the first 8 collected text values numbered
consecutively after the title (from `Text 1` when no title exists), the
first 10 links as `Link 1..`, the first 10 images as `Image 1..`, and a
`Description` holding the longest collected title/text candidate with
ties broken by first occurrence. -/
theorem extract_fields_from_card_matches_amended (c : CardDom) :
    extract_fields_from_card c = extract_fields_from_card_spec c := by
  simp only [extract_fields_from_card, extract_fields_from_card_spec]
  rcases hT : collectTitles c.titleTexts with _ | ⟨t0, trest⟩
  · dsimp only
    rw [card_build_chain [] 1 (collectTexts c.textTexts) (collectAttrs c.hrefs)
      (collectAttrs c.srcs) (by omega) (fun k hk => by simp [dictHas] at hk)
      (fun j hj => rfl)]
    rcases hX : collectTexts c.textTexts with _ | ⟨x0, xrest⟩
    · simp
    · rw [if_pos (by simp)]
      rw [dictSet_absent _ _ _ (card_build_desc_absent [] 1 (x0 :: xrest)
        (collectAttrs c.hrefs) (collectAttrs c.srcs) (by omega)
        (fun k hk => by simp [dictHas] at hk))]
      simp
  · dsimp only
    have hd0 : ∀ k, dictHas (dictSet [] "Text 1" t0) k = true →
        k = "Text " ++ toString 1 := by
      intro k hk
      simp only [dictSet, dictHas, List.any_cons, List.any_nil, Bool.or_false] at hk
      exact (of_decide_eq_true hk).symm
    have hTabs : ∀ j, j < ((collectTexts c.textTexts).take 8).length →
        dictHas (dictSet [] "Text 1" t0) ("Text " ++ toString (2 + j)) = false := by
      intro j hj
      have hjl : j < 8 := by
        rw [List.length_take] at hj
        omega
      simp only [dictSet, dictHas, List.any_cons, List.any_nil, Bool.or_false]
      rw [decide_eq_false]
      intro hh
      have hh2 : ("Text " ++ toString 1 : String) = "Text " ++ toString (2 + j) := by
        rw [show ("Text " ++ toString 1 : String) = "Text 1" from rfl]
        exact hh
      exact keyTT 1 (by omega) (2 + j) (by omega) (by omega) hh2
    rw [card_build_chain (dictSet [] "Text 1" t0) 2 (collectTexts c.textTexts)
      (collectAttrs c.hrefs) (collectAttrs c.srcs) (by omega) hd0 hTabs]
    rw [if_pos (by simp)]
    rw [dictSet_absent _ _ _ (card_build_desc_absent (dictSet [] "Text 1" t0) 2
      (collectTexts c.textTexts) (collectAttrs c.hrefs) (collectAttrs c.srcs)
      (by omega) hd0)]
    simp [dictSet]

/-- Claim C7 as stated is false on the code: with no title and nine
distinct collectable texts, the ninth collected text value is appended
under no key at all (only `text_values[:8]` are appended). -/
theorem card_text_cap_counterexample :
    "ii" ∈ collectTexts nineTextCard.textTexts ∧
    dictGet (extract_fields_from_card nineTextCard) "Text 9" = none ∧
    (extract_fields_from_card nineTextCard).all (fun p => p.2 ≠ "ii") = true := by
  exact ⟨by decide, by rfl, by rfl⟩

/-! ### Scrape loop (claims C1, C2, C10) -/

/-- The appended rows' keys are exactly the page's key set. -/
theorem processPage_rows_keys (dsels : List FieldCfg) (ud : Bool) :
    ∀ (cards : List PageCard) (seen : List DedupKey),
      (processPage dsels ud cards seen).rows.map (fun p => p.1) =
        (processPage dsels ud cards seen).pageKeys := by
  intro cards
  induction cards with
  | nil => intro seen; rfl
  | cons c rest ih =>
    intro seen
    by_cases hs : c.stale = true
    · simp only [processPage, hs, if_true]
      exact ih seen
    · simp only [processPage, hs, Bool.false_eq_true, if_false]
      by_cases hk : dedupKeyOf (extract_fields_from_card c.dom) ∈ seen
      · rw [if_pos hk]
        exact ih seen
      · rw [if_neg hk]
        simp only [List.map_cons]
        rw [ih]

/-- The seen-set after a page is the old one extended by the page keys. -/
theorem processPage_seenAfter (dsels : List FieldCfg) (ud : Bool) :
    ∀ (cards : List PageCard) (seen : List DedupKey),
      (processPage dsels ud cards seen).seenAfter =
        seen ++ (processPage dsels ud cards seen).pageKeys := by
  intro cards
  induction cards with
  | nil => intro seen; simp [processPage]
  | cons c rest ih =>
    intro seen
    by_cases hs : c.stale = true
    · simp only [processPage, hs, if_true]
      exact ih seen
    · simp only [processPage, hs, Bool.false_eq_true, if_false]
      by_cases hk : dedupKeyOf (extract_fields_from_card c.dom) ∈ seen
      · rw [if_pos hk]
        exact ih seen
      · rw [if_neg hk]
        simp only []
        rw [ih (seen ++ [dedupKeyOf (extract_fields_from_card c.dom)])]
        simp

/-- Every page key is new: it was not in the seen-set at page entry. -/
theorem processPage_fresh (dsels : List FieldCfg) (ud : Bool) :
    ∀ (cards : List PageCard) (seen : List DedupKey) (k : DedupKey),
      k ∈ (processPage dsels ud cards seen).pageKeys → k ∉ seen := by
  intro cards
  induction cards with
  | nil => intro seen k hk; simp [processPage] at hk
  | cons c rest ih =>
    intro seen k hk
    by_cases hs : c.stale = true
    · simp only [processPage, hs, if_true] at hk
      exact ih seen k hk
    · simp only [processPage, hs, Bool.false_eq_true, if_false] at hk
      by_cases hmem : dedupKeyOf (extract_fields_from_card c.dom) ∈ seen
      · rw [if_pos hmem] at hk
        exact ih seen k hk
      · rw [if_neg hmem] at hk
        simp only [List.mem_cons] at hk
        rcases hk with hk | hk
        · rw [hk]
          exact hmem
        · intro hins
          exact ih _ k hk (List.mem_append.mpr (Or.inl hins))

/-- The page's key set has no duplicates. -/
theorem processPage_nodup (dsels : List FieldCfg) (ud : Bool) :
    ∀ (cards : List PageCard) (seen : List DedupKey),
      (processPage dsels ud cards seen).pageKeys.Nodup := by
  intro cards
  induction cards with
  | nil => intro seen; simp [processPage]
  | cons c rest ih =>
    intro seen
    by_cases hs : c.stale = true
    · simp only [processPage, hs, if_true]
      exact ih seen
    · simp only [processPage, hs, Bool.false_eq_true, if_false]
      by_cases hk : dedupKeyOf (extract_fields_from_card c.dom) ∈ seen
      · rw [if_pos hk]
        exact ih seen
      · rw [if_neg hk]
        simp only [List.nodup_cons]
        refine ⟨?_, ih _⟩
        intro hmem
        exact processPage_fresh dsels ud rest _ _ hmem
          (List.mem_append.mpr (Or.inr (by simp)))

/-- Set-equality on key lists gives mutual containment. -/
theorem keySetEq_subset (l1 l2 : List DedupKey) (h : keySetEq l1 l2 = true) :
    (∀ k ∈ l1, k ∈ l2) ∧ (∀ k ∈ l2, k ∈ l1) := by
  rw [keySetEq, Bool.and_eq_true] at h
  constructor
  · intro k hk
    simpa using List.all_eq_true.mp h.1 k hk
  · intro k hk
    simpa using List.all_eq_true.mp h.2 k hk

/-- Loop invariant: the accumulated rows keep pairwise-distinct keys. -/
theorem scrapeLoop_keys_nodup (env : ScrapeEnv) (dsels : List FieldCfg) (ud : Bool) :
    ∀ (fuel page : Nat) (seen prev : List DedupKey) (acc : List (DedupKey × Row))
      (clicks processed : Nat),
      (acc.map (fun p => p.1)).Nodup →
      (∀ k ∈ acc.map (fun p => p.1), k ∈ seen) →
      ((scrapeLoop env dsels ud fuel page seen prev acc clicks processed).data.map
        (fun p => p.1)).Nodup := by
  intro fuel
  induction fuel with
  | zero =>
    intro page seen prev acc clicks processed hnd hsub
    simpa [scrapeLoop] using hnd
  | succ n ih =>
    intro page seen prev acc clicks processed hnd hsub
    simp only [scrapeLoop]
    have hkeys := processPage_rows_keys dsels ud (env.pageAt page) seen
    have hfresh := processPage_fresh dsels ud (env.pageAt page) seen
    have hnodup := processPage_nodup dsels ud (env.pageAt page) seen
    have hacc' : ((acc ++ (processPage dsels ud (env.pageAt page) seen).rows).map
        (fun p => p.1)).Nodup := by
      rw [List.map_append, hkeys]
      exact List.Nodup.append hnd hnodup (fun a ha hb => hfresh a hb (hsub a ha))
    split_ifs with h1 h2 h3 h4
    · exact hacc'
    · exact hacc'
    · exact hacc'
    · exact hacc'
    · refine ih (page + 1) _ _ _ _ _ hacc' ?_
      intro a ha
      rw [List.map_append, hkeys] at ha
      rw [processPage_seenAfter]
      rcases List.mem_append.mp ha with h | h
      · exact List.mem_append.mpr (Or.inl (hsub a h))
      · exact List.mem_append.mpr (Or.inr h)

/-- Loop invariant: with the previous page's keys contained in the seen
set, the "same cards as previous page" stop is never the outcome. -/
theorem scrapeLoop_no_sameCards (env : ScrapeEnv) (dsels : List FieldCfg) (ud : Bool) :
    ∀ (fuel page : Nat) (seen prev : List DedupKey) (acc : List (DedupKey × Row))
      (clicks processed : Nat),
      (∀ k ∈ prev, k ∈ seen) →
      (scrapeLoop env dsels ud fuel page seen prev acc clicks processed).reason ≠
        StopReason.sameCards := by
  intro fuel
  induction fuel with
  | zero =>
    intro page seen prev acc clicks processed hprev
    simp [scrapeLoop]
  | succ n ih =>
    intro page seen prev acc clicks processed hprev
    simp only [scrapeLoop]
    split_ifs with h1 h2 h3 h4
    · simp
    · exfalso
      obtain ⟨hke, hpage⟩ := h2
      have hkeys := processPage_rows_keys dsels ud (env.pageAt page) seen
      have hfresh := processPage_fresh dsels ud (env.pageAt page) seen
      have hrne : (processPage dsels ud (env.pageAt page) seen).rows ≠ [] := by
        intro hc
        exact h1 (by rw [hc]; rfl)
      have hkne : (processPage dsels ud (env.pageAt page) seen).pageKeys ≠ [] := by
        intro hc
        rw [← hkeys] at hc
        exact hrne (List.map_eq_nil.mp hc)
      obtain ⟨k0, hk0⟩ := List.exists_mem_of_ne_nil _ hkne
      exact hfresh k0 hk0 (hprev k0 ((keySetEq_subset _ _ hke).1 k0 hk0))
    · simp
    · simp
    · refine ih (page + 1) _ _ _ _ _ ?_
      intro k hk
      rw [processPage_seenAfter]
      exact List.mem_append.mpr (Or.inr hk)

/-- A key-distinct annotated dataset holds each key at most once. -/
theorem countP_fst_le_one :
    ∀ (l : List (DedupKey × Row)), (l.map (fun p => p.1)).Nodup →
      ∀ k : DedupKey, l.countP (fun p => decide (p.1 = k)) ≤ 1 := by
  intro l
  induction l with
  | nil => intro _ k; simp
  | cons p rest ih =>
    intro hnd k
    simp only [List.map_cons, List.nodup_cons] at hnd
    rw [List.countP_cons]
    by_cases h : p.1 = k
    · have h0 : rest.countP (fun q => decide (q.1 = k)) = 0 := by
        rw [List.countP_eq_zero]
        intro q hq
        simp only [decide_eq_true_eq]
        intro hqk
        exact hnd.1 (List.mem_map.mpr ⟨q, hq, by rw [hqk, h]⟩)
      simp [h, h0]
    · rw [decide_eq_false h]
      simpa using ih hnd.2 k

/-- Claim C1: a dedup key occurs on at most one row of the returned
dataset — keys are recorded in the global seen-set on first acceptance and
later cards with a seen key are skipped, on whatever page they appear; the
public result is the annotated dataset's rows in order. -/
theorem scrape_global_dedup (env : ScrapeEnv) (dsels : List FieldCfg) (pcs : Option String)
    (mp : Nat) (k : DedupKey) :
    (scrapeRun env dsels pcs mp).data.countP (fun p => decide (p.1 = k)) ≤ 1 ∧
    scrape_with_locked_container env dsels pcs mp =
      (scrapeRun env dsels pcs mp).data.map (fun p => p.2) := by
  refine ⟨?_, rfl⟩
  exact countP_fst_le_one _
    (scrapeLoop_keys_nodup env dsels (useDetailFlag dsels pcs) mp 0 [] [] [] 0 0
      (by simp) (by simp)) k

/-- Claim C2: if the card-key set produced by page 2 equals page 1's, the
run stops after at most two processed pages with at most two
pagination-click attempts, and (when at least one page was allowed) it
stops through the zero-rows check — the checks run in that order. -/
theorem repeated_keys_stop (env : ScrapeEnv) (dsels : List FieldCfg) (pcs : Option String)
    (mp : Nat)
    (h : keySetEq (page1Keys env dsels pcs) (page0Keys env dsels pcs) = true) :
    (scrapeRun env dsels pcs mp).processed ≤ 2 ∧
    (scrapeRun env dsels pcs mp).clicks ≤ 2 ∧
    (0 < mp → (scrapeRun env dsels pcs mp).reason = StopReason.noCards) := by
  have hk1 : page1Keys env dsels pcs = [] := by
    by_contra hne
    obtain ⟨k0, hk0⟩ := List.exists_mem_of_ne_nil _ hne
    have h_in_k0 : k0 ∈ page0Keys env dsels pcs := (keySetEq_subset _ _ h).1 k0 hk0
    refine processPage_fresh dsels (useDetailFlag dsels pcs) (env.pageAt 1)
      ((processPage dsels (useDetailFlag dsels pcs) (env.pageAt 0) []).seenAfter) k0 hk0 ?_
    rw [processPage_seenAfter]
    simpa using h_in_k0
  have hk0 : page0Keys env dsels pcs = [] := by
    by_contra hne
    obtain ⟨k0, hk0⟩ := List.exists_mem_of_ne_nil _ hne
    have := (keySetEq_subset _ _ h).2 k0 hk0
    rw [hk1] at this
    exact List.not_mem_nil k0 this
  have hrows0 : (processPage dsels (useDetailFlag dsels pcs) (env.pageAt 0) []).rows = [] := by
    have hmap := processPage_rows_keys dsels (useDetailFlag dsels pcs) (env.pageAt 0) []
    rw [show (processPage dsels (useDetailFlag dsels pcs) (env.pageAt 0) []).pageKeys =
      page0Keys env dsels pcs from rfl, hk0] at hmap
    exact List.map_eq_nil.mp hmap
  cases mp with
  | zero =>
    refine ⟨by simp [scrapeRun, scrapeLoop], by simp [scrapeRun, scrapeLoop], by omega⟩
  | succ m =>
    have hrun : scrapeRun env dsels pcs (m + 1) =
        ⟨[] ++ (processPage dsels (useDetailFlag dsels pcs) (env.pageAt 0) []).rows, 0, 0 + 1,
          StopReason.noCards⟩ := by
      simp only [scrapeRun, scrapeLoop]
      rw [if_pos (by rw [hrows0]; rfl)]
    rw [hrun]
    exact ⟨by simp, by simp, fun _ => rfl⟩

/-- Witness for claim C2 at a concrete environment with no pages: the
key sets coincide (both empty) and the run stops on the first page with
no pagination clicks. -/
theorem repeated_keys_stop_witness :
    keySetEq (page1Keys emptyScrapeEnv [] none) (page0Keys emptyScrapeEnv [] none) = true ∧
    (scrapeRun emptyScrapeEnv [] none 3).processed ≤ 2 ∧
    (scrapeRun emptyScrapeEnv [] none 3).clicks ≤ 2 ∧
    (0 < 3 → (scrapeRun emptyScrapeEnv [] none 3).reason = StopReason.noCards) :=
  ⟨by rfl, repeated_keys_stop emptyScrapeEnv [] none 3 (by rfl)⟩

/-- Claim C10: the "same cards as previous page" stop branch is
unreachable — global dedup keeps every page key disjoint from the seen
set (hence from the previous page's keys), a page with an empty key set
appends no rows, and the zero-rows check runs first; so no run ever stops
with the `sameCards` reason. -/
theorem same_cards_stop_unreachable (env : ScrapeEnv) (dsels : List FieldCfg)
    (pcs : Option String) (mp : Nat) :
    (scrapeRun env dsels pcs mp).reason ≠ StopReason.sameCards ∧
    (∀ (cards : List PageCard) (seen : List DedupKey),
      (processPage dsels (useDetailFlag dsels pcs) cards seen).rows = [] ↔
        (processPage dsels (useDetailFlag dsels pcs) cards seen).pageKeys = []) ∧
    (∀ (cards : List PageCard) (seen : List DedupKey) (k : DedupKey),
      k ∈ (processPage dsels (useDetailFlag dsels pcs) cards seen).pageKeys → k ∉ seen) := by
  refine ⟨scrapeLoop_no_sameCards env dsels (useDetailFlag dsels pcs) mp 0 [] [] [] 0 0
    (by simp), ?_, processPage_fresh dsels (useDetailFlag dsels pcs)⟩
  intro cards seen
  constructor
  · intro hc
    have := processPage_rows_keys dsels (useDetailFlag dsels pcs) cards seen
    rw [hc] at this
    exact this.symm
  · intro hc
    have := processPage_rows_keys dsels (useDetailFlag dsels pcs) cards seen
    rw [hc] at this
    exact List.map_eq_nil.mp this

/-- Witness for claim C10 at a concrete run: the unreachable-branch fact
and the rows/keys equivalence evaluated on an empty page. -/
theorem same_cards_stop_unreachable_witness :
    (scrapeRun emptyScrapeEnv [] none 5).reason ≠ StopReason.sameCards ∧
    ((processPage [] (useDetailFlag [] none) [] []).rows = [] ↔
      (processPage [] (useDetailFlag [] none) [] []).pageKeys = []) :=
  ⟨(same_cards_stop_unreachable emptyScrapeEnv [] none 5).1,
   (same_cards_stop_unreachable emptyScrapeEnv [] none 5).2.1 [] []⟩

end Autoscraper
